import Mathlib

/-!
# Demand-loading tile indexing and page-loader glue

A shallow embedding of

* `include/OptiXToolkit/DemandLoading/TileIndexing.h` (the 2022 header, 8x8-block
  hardware layout), namespace `demandLoading.HW`;
* `DemandLoading/include/OptiXToolkit/DemandLoading/TileIndexing.h` (the 2023 header,
  row-major layout), namespace `demandLoading.RM`;
* the methods of `DemandLoading/src/DemandPageLoaderImpl.cpp`: construction, the
  invalidation queue, `setPageTableEntry` and `replayRequests`;
* `wrapTexCoord` of both headers on a model of single-precision arithmetic;
* the item pool exercised by `tests/TestItemPool.cpp`, whose header is not among the
  sources;
* the tiling adapter exercised by `ImageSource/tests/TestTiledImageSource.cpp`, whose
  sources are not among the files either.

Machine integers are mathematical integers with the wrap made explicit: `unsigned int`
values are naturals reduced modulo `2^32`, `int` values are integers wrapped into
`[-2^31, 2^31)`, and `/`, `%` on `int` truncate towards zero as in C++.
-/

namespace demandLoading

/-! ## Machine integers -/

/-- Conversion of an integer value to `int`: wrap into `[-2^31, 2^31)`. -/
def toInt32 (z : Int) : Int := (z + 2 ^ 31) % 2 ^ 32 - 2 ^ 31

/-- Conversion of an integer value to `unsigned int`: reduce modulo `2^32`. -/
def toUInt32 (z : Int) : Nat := (z % 2 ^ 32).toNat

/-- The `int` sum `a + b`. -/
def iadd (a b : Int) : Int := toInt32 (a + b)

/-- The `int` difference `a - b`. -/
def isub (a b : Int) : Int := toInt32 (a - b)

/-- The `int` product `a * b`. -/
def imul (a b : Int) : Int := toInt32 (a * b)

/-- The `int` quotient `a / b`, truncating towards zero. -/
def idiv (a b : Int) : Int := toInt32 (Int.tdiv a b)

/-- The `int` remainder `a % b`, with the sign of the dividend. -/
def imod (a b : Int) : Int := Int.tmod a b

/-- The `unsigned int` sum `a + b`. -/
def uadd (a b : Nat) : Nat := (a + b) % 2 ^ 32

/-- The `unsigned int` difference `a - b` of two values below `2^32`. -/
def usub (a b : Nat) : Nat := (a + 2 ^ 32 - b % 2 ^ 32) % 2 ^ 32

/-- The `unsigned int` product `a * b`. -/
def umul (a b : Nat) : Nat := (a * b) % 2 ^ 32

/-- Helper `uimax( a, b )`. -/
def uimax (a b : Nat) : Nat := if a > b then a else b

/-! ## Functions shared by the two headers -/

/-- Function `calculateLevelDim( mipLevel, textureDim )`:
`uimax( textureDim >> mipLevel, 1U )`; the shift is defined for `mipLevel < 32`. -/
def calculateLevelDim (mipLevel textureDim : Nat) : Nat :=
  uimax (textureDim >>> mipLevel) 1

/-- Function `getLevelDimInTiles( textureDim, mipLevel, tileDim )`:
`( calculateLevelDim( mipLevel, textureDim ) + tileDim - 1 ) / tileDim` in `unsigned int`. -/
def getLevelDimInTiles (textureDim mipLevel tileDim : Nat) : Nat :=
  usub (uadd (calculateLevelDim mipLevel textureDim) tileDim) 1 / tileDim

/-- Function `isMipTailIndex( pageIndex )`: page 0 always contains the mip tail. -/
def isMipTailIndex (pageIndex : Nat) : Bool := pageIndex == 0

/-! ## The texture sampler and the level scan of `unpackTileIndex` -/

/-- Modelled from the spec: `TextureSampler.h` is not among the sources. One entry of the
sampler's `mipLevelSizes` array, `{ mipLevelStart, levelWidthInTiles }`; `unpackTileIndex`
reads both as `unsigned int`. -/
structure MipLevelSizes where
  mipLevelStart : Nat
  levelWidthInTiles : Nat

/-- Modelled from the spec: the fields of `TextureSampler` that `unpackTileIndex` reads.
`mipLevelSizes` is the per-level array, indexed by mip level; `mipTailFirstLevel` is an index
into it, so its conversion to the `int` loop counter is the identity. -/
structure TextureSampler where
  mipTailFirstLevel : Nat
  numPages : Nat
  mipLevelSizes : Nat → MipLevelSizes

/-- The local `nextMipLevelStart` of `unpackTileIndex`:
`( mipLevel > 0 ) ? mipLevelSizes[mipLevel - 1].mipLevelStart : sampler.numPages`. -/
def nextMipLevelStart (sampler : TextureSampler) (mipLevel : Nat) : Nat :=
  if mipLevel > 0 then (sampler.mipLevelSizes (mipLevel - 1)).mipLevelStart
  else sampler.numPages

/-- The body of the `if` inside the loop of `unpackTileIndex`: the outputs
`( outMipLevel, outTileX, outTileY )` for a tile owned by `mipLevel`. The `unsigned int`
values `indexInLevel` and `levelWidthInTiles` are converted to the `int` parameters of
`getTileCoordsFromPageOffset`, here `coords`. -/
def unpackInLevel (coords : Int → Int → Nat × Nat) (sampler : TextureSampler)
    (tileIndex mipLevel : Nat) : Nat × Nat × Nat :=
  let levelWidthInTiles := (sampler.mipLevelSizes mipLevel).levelWidthInTiles
  let indexInLevel := usub tileIndex (sampler.mipLevelSizes mipLevel).mipLevelStart
  let tile := coords (toInt32 indexInLevel) (toInt32 levelWidthInTiles)
  (mipLevel, tile.1, tile.2)

/-- The `for( int mipLevel = ...; mipLevel >= 0; --mipLevel )` loop of `unpackTileIndex`,
entered with the given `mipLevel`, followed by the fallback assignment of `( 0, 0, 0 )`.
The two headers have the same text and differ in the `getTileCoordsFromPageOffset` they
call, which is the parameter `coords`. -/
def unpackTileIndexLoop (coords : Int → Int → Nat × Nat) (sampler : TextureSampler)
    (tileIndex : Nat) : Nat → Nat × Nat × Nat
  | 0 =>
    if tileIndex < nextMipLevelStart sampler 0 then unpackInLevel coords sampler tileIndex 0
    else (0, 0, 0)
  | mipLevel + 1 =>
    if tileIndex < nextMipLevelStart sampler (mipLevel + 1) then
      unpackInLevel coords sampler tileIndex (mipLevel + 1)
    else unpackTileIndexLoop coords sampler tileIndex mipLevel

/-! ## The 2022 header: 8x8-block hardware layout -/

namespace HW

/-- Function `calculateNumTilesInLevel` of the 2022 header: both dimensions are rounded up
with `( d + 7 ) & 0xfffffff8` and multiplied, all in `unsigned int`. -/
def calculateNumTilesInLevel (levelWidthInTiles levelHeightInTiles : Nat) : Nat :=
  let levelWidthInTiles := uadd levelWidthInTiles 7 &&& 0xfffffff8
  let levelHeightInTiles := uadd levelHeightInTiles 7 &&& 0xfffffff8
  umul levelWidthInTiles levelHeightInTiles

/-- Function `getTileCoordsFromPageOffset` of the 2022 header. The arguments are `int`,
the two results `( tileX, tileY )` are `unsigned int`. -/
def getTileCoordsFromPageOffset (pageOffsetInLevel levelWidthInTiles : Int) : Nat × Nat :=
  let levelWidthInBlocks := idiv (iadd levelWidthInTiles 7) 8
  let blockNum := idiv pageOffsetInLevel 64
  let xblock := imod blockNum levelWidthInBlocks
  let yblock := idiv blockNum levelWidthInBlocks
  let blockOffset := imod pageOffsetInLevel 64
  let xoffset := imod blockOffset 8
  let yoffset := idiv blockOffset 8
  (toUInt32 (iadd (imul xblock 8) xoffset), toUInt32 (iadd (imul yblock 8) yoffset))

/-- Function `getPageOffsetFromTileCoords` of the 2022 header: tiles are laid out in 8x8
blocks, all arithmetic in `int`. -/
def getPageOffsetFromTileCoords (x y levelWidthInTiles : Int) : Int :=
  let levelWidthInBlocks := idiv (iadd levelWidthInTiles 7) 8
  iadd (iadd (iadd (imul 64 (imul levelWidthInBlocks (idiv y 8)))
                   (imul 64 (idiv x 8)))
             (imul 8 (imod y 8)))
       (imod x 8)

/-- Function `unpackTileIndex` of the 2022 header, returning
`( outMipLevel, outTileX, outTileY )`. -/
def unpackTileIndex (sampler : TextureSampler) (tileIndex : Nat) : Nat × Nat × Nat :=
  unpackTileIndexLoop getTileCoordsFromPageOffset sampler tileIndex sampler.mipTailFirstLevel

end HW

/-! ## The 2023 header: row-major layout -/

namespace RM

/-- Function `calculateNumTilesInLevel` of the 2023 header: the plain `unsigned int`
product. -/
def calculateNumTilesInLevel (levelWidthInTiles levelHeightInTiles : Nat) : Nat :=
  umul levelWidthInTiles levelHeightInTiles

/-- Function `getTileCoordsFromPageOffset` of the 2023 header. -/
def getTileCoordsFromPageOffset (pageOffsetInLevel levelWidthInTiles : Int) : Nat × Nat :=
  (toUInt32 (imod pageOffsetInLevel levelWidthInTiles),
   toUInt32 (idiv pageOffsetInLevel levelWidthInTiles))

/-- Function `getPageOffsetFromTileCoords` of the 2023 header:
`y * levelWidthInTiles + x` in `int`. -/
def getPageOffsetFromTileCoords (x y levelWidthInTiles : Int) : Int :=
  iadd (imul y levelWidthInTiles) x

/-- Function `unpackTileIndex` of the 2023 header, returning
`( outMipLevel, outTileX, outTileY )`. -/
def unpackTileIndex (sampler : TextureSampler) (tileIndex : Nat) : Nat × Nat × Nat :=
  unpackTileIndexLoop getTileCoordsFromPageOffset sampler tileIndex sampler.mipTailFirstLevel

end RM

/-! ## Layouts of the page ids of a sampler -/

/-- The `mipLevelStart` of a level. -/
def levelStart (sampler : TextureSampler) (mipLevel : Nat) : Nat :=
  (sampler.mipLevelSizes mipLevel).mipLevelStart

/-- The `levelWidthInTiles` of a level. -/
def levelWidth (sampler : TextureSampler) (mipLevel : Nat) : Nat :=
  (sampler.mipLevelSizes mipLevel).levelWidthInTiles

/-- The starts decrease strictly with the level and stay within the sampler's pages:
`start(n) < start(n-1) < ... < start(0) ≤ numPages` for `n = mipTailFirstLevel`. -/
def StartsDecreasing (sampler : TextureSampler) : Prop :=
  (∀ j, j < sampler.mipTailFirstLevel → levelStart sampler (j + 1) < levelStart sampler j)
    ∧ levelStart sampler 0 ≤ sampler.numPages

/-- The starts increase strictly with the level, over levels `0..mipTailFirstLevel`. -/
def StartsIncreasing (sampler : TextureSampler) : Prop :=
  ∀ j, j < sampler.mipTailFirstLevel → levelStart sampler j < levelStart sampler (j + 1)

/-- Every level width of the sampler is at least one tile. -/
def WidthsPositive (sampler : TextureSampler) : Prop :=
  ∀ j, j ≤ sampler.mipTailFirstLevel → 1 ≤ levelWidth sampler j

instance (sampler : TextureSampler) : Decidable (StartsDecreasing sampler) := by
  unfold StartsDecreasing; infer_instance

instance (sampler : TextureSampler) : Decidable (StartsIncreasing sampler) := by
  unfold StartsIncreasing; infer_instance

instance (sampler : TextureSampler) : Decidable (WidthsPositive sampler) := by
  unfold WidthsPositive; infer_instance

/-- Every level `i` of `0..mipTailFirstLevel`, `levelWidthInTiles(i)` by `heights i` tiles
with both at least 1, is given at least `calculateNumTilesInLevel` (2022 header) page ids:
`start(i) + calculateNumTilesInLevel( w_i, h_i ) ≤ start(i-1)`, with `start(-1) = numPages`. -/
def HW.LevelsFit (sampler : TextureSampler) (heights : Nat → Nat) : Prop :=
  ∀ i, i ≤ sampler.mipTailFirstLevel →
    1 ≤ levelWidth sampler i ∧ 1 ≤ heights i
      ∧ levelStart sampler i
          + HW.calculateNumTilesInLevel (levelWidth sampler i) (heights i)
        ≤ nextMipLevelStart sampler i

instance (sampler : TextureSampler) (heights : Nat → Nat) :
    Decidable (HW.LevelsFit sampler heights) := by
  unfold HW.LevelsFit; infer_instance

/-- The level reached first, scanning from `mipLevel` down to 0, whose `mipLevelStart`
is at most the tile index (the owning level in the words of the specification). -/
def firstLevelStartingAtMost (sampler : TextureSampler) (tileIndex : Nat) : Nat → Option Nat
  | 0 => if levelStart sampler 0 ≤ tileIndex then some 0 else none
  | mipLevel + 1 =>
    if levelStart sampler (mipLevel + 1) ≤ tileIndex then some (mipLevel + 1)
    else firstLevelStartingAtMost sampler tileIndex mipLevel

/-- The level reached last, scanning from `mipLevel` down to 0, whose `mipLevelStart` is
at most the tile index, that is the lowest such level. -/
def lastLevelStartingAtMost (sampler : TextureSampler) (tileIndex : Nat) : Nat → Option Nat
  | 0 => if levelStart sampler 0 ≤ tileIndex then some 0 else none
  | mipLevel + 1 =>
    match lastLevelStartingAtMost sampler tileIndex mipLevel with
    | some lower => some lower
    | none => if levelStart sampler (mipLevel + 1) ≤ tileIndex then some (mipLevel + 1) else none

/-- A sampler with three levels laid out as the loop of `unpackTileIndex` expects: the mip
tail level 2 starts at page 0, level 1 at page 64, level 0 at page 128, of 448 pages. -/
def sampleSampler : TextureSampler where
  mipTailFirstLevel := 2
  numPages := 448
  mipLevelSizes := fun mipLevel =>
    if mipLevel = 0 then ⟨128, 12⟩ else if mipLevel = 1 then ⟨64, 6⟩ else ⟨0, 3⟩

/-- A sampler with two levels whose starts increase with the level: level 0 starts at
page 0, level 1 at page 10, of 20 pages. -/
def increasingSampler : TextureSampler where
  mipTailFirstLevel := 1
  numPages := 20
  mipLevelSizes := fun mipLevel => if mipLevel = 0 then ⟨0, 8⟩ else ⟨10, 8⟩

/-- A sampler with the single level 0, 65535 tiles wide, starting at page 0, of 1 page. -/
def wideSampler : TextureSampler where
  mipTailFirstLevel := 0
  numPages := 1
  mipLevelSizes := fun _ => ⟨0, 65535⟩

/-! ## The invalidation queue of `DemandPageLoaderImpl`

The loader is a record of the members that `pushMappings`, `invalidatePages`,
`setMaxTextureMemory`, `invalidatePageRange`, `setPageTableEntry` and `replayRequests`
touch. The paging system, the device memory manager and the request processor are
collaborators whose code is not part of the sources: the calls made on them are appended,
oldest first, to the log `calls`. The mutex is not modelled; every
function below is one critical section or runs on a single thread. -/

/-- A CUDA stream handle. -/
abbrev CUstream := Nat

/-- Modelled from the spec: the tile block descriptor `{ arenaId, offsetInArena }` that the
64-bit page table entry of a tile page packs; its header is not among the sources. -/
structure TileBlockDesc where
  arenaId : Nat
  offsetInArena : Nat

/-- Interface `PageInvalidatorPredicate`: `operator()( pageId, pageVal, stream )` says
whether the page is to be discarded. -/
abbrev PageInvalidatorPredicate := Nat → Nat → CUstream → Bool

/-- Class `ResizeTilePoolPredicate`, constructed with the `unsigned int` `maxArenas`:
`TileBlockDesc tileBlock( pageVal ); return ( tileBlock.arenaId >= m_maxArenas );`.
The unpacking constructor `TileBlockDesc( pageVal )` is the parameter `tileBlockDesc`. -/
def ResizeTilePoolPredicate (tileBlockDesc : Nat → TileBlockDesc) (m_maxArenas : Nat) :
    PageInvalidatorPredicate :=
  fun _pageId pageVal _stream =>
    let tileBlock := tileBlockDesc pageVal
    decide (tileBlock.arenaId ≥ m_maxArenas)

/-- Struct `InvalidationRange{ startPage, endPage, predicate }`. -/
structure InvalidationRange where
  startPage : Nat
  endPage : Nat
  predicate : PageInvalidatorPredicate

/-- Modelled from the spec: the `Options` of the loader; `Options.h` is not among the
sources. -/
structure Options where
  numPages : Nat
  numPageTableEntries : Nat
  maxPinnedMemory : Nat
  maxTexMemPerDevice : Nat
  useSparseTextures : Bool
  evictionActive : Bool

/-- Modelled from the spec: a device context, identified by its slot in the pool of the
device memory manager, with the flag `requestIfResident`. -/
structure DeviceContext where
  poolSlot : Nat
  requestIfResident : Bool

/-- A call made by the loader on one of its collaborators. -/
inductive Call where
  /-- Call `m_deviceMemoryManager.allocateDeviceContext()`. -/
  | allocateDeviceContext
  /-- Call `m_pagingSystem.invalidatePages( startPage, endPage, predicate, context, stream )`. -/
  | pagingInvalidatePages (startPage endPage : Nat) (predicate : PageInvalidatorPredicate)
      (context : DeviceContext) (stream : CUstream)
  /-- Statement `delete ir.predicate`. -/
  | deletePredicate (predicate : PageInvalidatorPredicate)
  /-- Call `m_pagingSystem.pushMappings( context, stream )`. -/
  | pagingPushMappings (context : DeviceContext) (stream : CUstream)
  /-- Call `m_deviceMemoryManager.setMaxTextureTileMemory( maxMem )`. -/
  | setMaxTextureTileMemory (maxMem : Nat)
  /-- Call `m_pagingSystem.addMapping( pageId, lruVal, pageTableEntry )`. -/
  | pagingAddMapping (pageId lruVal pageTableEntry : Nat)
  /-- Call `m_pagingSystem.flushMappings()`. -/
  | pagingFlushMappings
  /-- Call `m_requestProcessor->addRequests( stream, id, pageIds, numPageIds )`. -/
  | addRequests (stream : CUstream) (id : Nat) (pageIds : List Nat) (numPageIds : Nat)

/-- The members of `DemandPageLoaderImpl` used by the invalidation queue.
`tilePoolArenaSize` is what `m_deviceMemoryManager.getTilePoolArenaSize()` returns,
`pooledContext` the context that `allocateDeviceContext()` hands out, `tileBlockDesc` the
unpacking of a page table entry into its `TileBlockDesc`. -/
structure DemandPageLoaderImpl where
  m_options : Options
  m_pagesToInvalidate : List InvalidationRange
  tilePoolArenaSize : Nat
  pooledContext : DeviceContext
  tileBlockDesc : Nat → TileBlockDesc
  calls : List Call

namespace DemandPageLoaderImpl

/-- The body of the range-for loop of `invalidatePages`, run over the ranges that are
left: each range is passed to the paging system and its predicate is deleted. -/
def invalidateEach (stream : CUstream) (context : DeviceContext) :
    List InvalidationRange → List Call → List Call
  | [], calls => calls
  | ir :: rest, calls =>
    invalidateEach stream context rest
      (calls ++ [Call.pagingInvalidatePages ir.startPage ir.endPage ir.predicate context stream,
                 Call.deletePredicate ir.predicate])

/-- Method `invalidatePages( stream, context )`: the loop over `m_pagesToInvalidate`, then
`m_pagesToInvalidate.clear()`. -/
def invalidatePages (stream : CUstream) (context : DeviceContext)
    (loader : DemandPageLoaderImpl) : DemandPageLoaderImpl :=
  { loader with
    calls := invalidateEach stream context loader.m_pagesToInvalidate loader.calls
    m_pagesToInvalidate := [] }

/-- Method `pushMappings( stream, context )`, returning the `bool` result, the output
parameter `context` and the loader afterwards. The profiling range and the debug assertion
that the CUDA context matches the stream have no effect on the loader and are left out. -/
def pushMappings (stream : CUstream) (loader : DemandPageLoaderImpl) :
    Bool × DeviceContext × DemandPageLoaderImpl :=
  let context := loader.pooledContext
  let loader := { loader with calls := loader.calls ++ [Call.allocateDeviceContext] }
  let loader := invalidatePages stream context loader
  let context := { context with requestIfResident := loader.m_options.evictionActive }
  let loader := { loader with calls := loader.calls ++ [Call.pagingPushMappings context stream] }
  (true, context, loader)

/-- Method `setMaxTextureMemory( maxMem )`. The `size_t` quotient `maxArenas` is cast to
`unsigned int` for the predicate. -/
def setMaxTextureMemory (maxMem : Nat) (loader : DemandPageLoaderImpl) :
    DemandPageLoaderImpl :=
  let tilesStartPage := loader.m_options.numPageTableEntries
  let tilesEndPage := loader.m_options.numPages
  let maxArenas := maxMem / loader.tilePoolArenaSize
  let loader := { loader with calls := loader.calls ++ [Call.setMaxTextureTileMemory maxMem] }
  let predicate := ResizeTilePoolPredicate loader.tileBlockDesc (maxArenas % 2 ^ 32)
  let loader := { loader with
    m_pagesToInvalidate :=
      loader.m_pagesToInvalidate
        ++ [InvalidationRange.mk tilesStartPage tilesEndPage predicate] }
  { loader with m_options := { loader.m_options with maxTexMemPerDevice := maxMem } }

/-- Method `invalidatePageRange( startPage, endPage, predicate )`. -/
def invalidatePageRange (startPage endPage : Nat) (predicate : PageInvalidatorPredicate)
    (loader : DemandPageLoaderImpl) : DemandPageLoaderImpl :=
  { loader with
    m_pagesToInvalidate :=
      loader.m_pagesToInvalidate ++ [InvalidationRange.mk startPage endPage predicate] }

/-- The statements of `setMaxTextureMemory( maxMem )` up to and including the call
`m_deviceMemoryManager.setMaxTextureTileMemory( maxMem )` ("Resize, deleting tile arenas as
needed"): the three locals computed before it leave the loader as it is. -/
def setMaxTextureMemoryResized (maxMem : Nat) (loader : DemandPageLoaderImpl) :
    DemandPageLoaderImpl :=
  { loader with calls := loader.calls ++ [Call.setMaxTextureTileMemory maxMem] }

/-- The statements of `setMaxTextureMemory( maxMem )` after the call on the device memory
manager ("Schedule tiles from deleted arenas to be discarded"), run on the loader `resized`
that the first part leaves: the predicate is created, the range is pushed back, and the
option is set. -/
def setMaxTextureMemoryScheduled (maxMem : Nat) (resized : DemandPageLoaderImpl) :
    DemandPageLoaderImpl :=
  let tilesStartPage := resized.m_options.numPageTableEntries
  let tilesEndPage := resized.m_options.numPages
  let maxArenas := maxMem / resized.tilePoolArenaSize
  let predicate := ResizeTilePoolPredicate resized.tileBlockDesc (maxArenas % 2 ^ 32)
  let resized := { resized with
    m_pagesToInvalidate :=
      resized.m_pagesToInvalidate
        ++ [InvalidationRange.mk tilesStartPage tilesEndPage predicate] }
  { resized with m_options := { resized.m_options with maxTexMemPerDevice := maxMem } }

/-- Method `setPageTableEntry( pageId, evictable, pageTableEntry )`. The constant
`NON_EVICTABLE_LRU_VAL` comes from a header that is not among the sources and is a
parameter. -/
def setPageTableEntry (NON_EVICTABLE_LRU_VAL : Nat) (pageId : Nat) (evictable : Bool)
    (pageTableEntry : Nat) (loader : DemandPageLoaderImpl) : DemandPageLoaderImpl :=
  let lruVal := if evictable then 0 else NON_EVICTABLE_LRU_VAL
  { loader with calls := loader.calls ++ [Call.pagingAddMapping pageId lruVal pageTableEntry] }

/-- Method `replayRequests( stream, id, pageIds, numPageIds )`: the accumulated mappings
are flushed, then the requests go to the request processor. -/
def replayRequests (stream : CUstream) (id : Nat) (pageIds : List Nat) (numPageIds : Nat)
    (loader : DemandPageLoaderImpl) : DemandPageLoaderImpl :=
  let loader := { loader with calls := loader.calls ++ [Call.pagingFlushMappings] }
  { loader with calls := loader.calls ++ [Call.addRequests stream id pageIds numPageIds] }

end DemandPageLoaderImpl

/-- A loader with 2 MiB tile-pool arenas, no pending invalidation and an empty call log,
whose page table entries carry the arena id in their low 32 bits. -/
def sampleLoader : DemandPageLoaderImpl where
  m_options := ⟨1048576, 1024, 67108864, 0, true, true⟩
  m_pagesToInvalidate := []
  tilePoolArenaSize := 2097152
  pooledContext := ⟨0, false⟩
  tileBlockDesc := fun pageVal => ⟨pageVal % 2 ^ 32, pageVal / 2 ^ 32⟩
  calls := []

/-- A loader with 2 MiB tile-pool arenas and a texture budget of 1 GiB, that is 512
arenas, with no pending invalidation and an empty call log. -/
def budgetLoader : DemandPageLoaderImpl where
  m_options := ⟨1048576, 1024, 67108864, 1073741824, true, true⟩
  m_pagesToInvalidate := []
  tilePoolArenaSize := 2097152
  pooledContext := ⟨0, false⟩
  tileBlockDesc := fun pageVal => ⟨pageVal % 2 ^ 32, pageVal / 2 ^ 32⟩
  calls := []

/-! ## Construction of the loader and the sparse-texture capability

The CUDA driver is a collaborator: each of its calls yields a value or the `CUresult`
error that `OTK_ERROR_CHECK` throws. -/

/-- A CUDA driver error code, other than `CUDA_SUCCESS`. -/
abbrev CUresult := Nat

/-- A CUDA device handle. -/
abbrev CUdevice := Int

/-- The two device attributes that `supportsSparseTextures` queries. -/
inductive CUdevice_attribute where
  | CU_DEVICE_ATTRIBUTE_SPARSE_CUDA_ARRAY_SUPPORTED
  | CU_DEVICE_ATTRIBUTE_TCC_DRIVER
  deriving DecidableEq

/-- The driver calls made by the constructor: `cuCtxGetDevice( &device )` and
`cuDeviceGetAttribute( &value, attribute, device )`. -/
structure CudaDriver where
  cuCtxGetDevice : Except CUresult CUdevice
  cuDeviceGetAttribute : CUdevice_attribute → CUdevice → Except CUresult Int

/-- Method `supportsSparseTextures( device )`: `return sparseSupport && !inTccMode;` on
the two `int` attributes, an error of either query being thrown. -/
def DemandPageLoaderImpl.supportsSparseTextures (driver : CudaDriver) (device : CUdevice) :
    Except CUresult Bool :=
  match driver.cuDeviceGetAttribute
      CUdevice_attribute.CU_DEVICE_ATTRIBUTE_SPARSE_CUDA_ARRAY_SUPPORTED device with
  | Except.error e => Except.error e
  | Except.ok sparseSupport =>
    match driver.cuDeviceGetAttribute CUdevice_attribute.CU_DEVICE_ATTRIBUTE_TCC_DRIVER
        device with
    | Except.error e => Except.error e
    | Except.ok inTccMode => Except.ok (decide (sparseSupport ≠ 0) && !decide (inTccMode ≠ 0))

/-- The constructor `DemandPageLoaderImpl( pageTableManager, requestProcessor, options )`
(named `construct`, the name of the class being taken by the record). The members are
initialised from `options`, with nothing pending and no call made yet; the body gets the
current device and switches `useSparseTextures` off when the device does not support
sparse textures. The properties of the freshly built collaborators (`tilePoolArenaSize`,
`pooledContext`, `tileBlockDesc`) are parameters. -/
def DemandPageLoaderImpl.construct (driver : CudaDriver) (tilePoolArenaSize : Nat)
    (pooledContext : DeviceContext) (tileBlockDesc : Nat → TileBlockDesc)
    (options : Options) : Except CUresult DemandPageLoaderImpl :=
  match driver.cuCtxGetDevice with
  | Except.error e => Except.error e
  | Except.ok device =>
    match DemandPageLoaderImpl.supportsSparseTextures driver device with
    | Except.error e => Except.error e
    | Except.ok supported =>
      Except.ok
        { m_options :=
            if !supported then { options with useSparseTextures := false } else options
          m_pagesToInvalidate := []
          tilePoolArenaSize := tilePoolArenaSize
          pooledContext := pooledContext
          tileBlockDesc := tileBlockDesc
          calls := [] }

/-- A driver whose current device 0 supports sparse CUDA arrays and runs the TCC driver. -/
def tccDriver : CudaDriver where
  cuCtxGetDevice := Except.ok 0
  cuDeviceGetAttribute := fun attrib _ =>
    match attrib with
    | CUdevice_attribute.CU_DEVICE_ATTRIBUTE_SPARSE_CUDA_ARRAY_SUPPORTED => Except.ok 1
    | CUdevice_attribute.CU_DEVICE_ATTRIBUTE_TCC_DRIVER => Except.ok 1

/-! ## Single-precision arithmetic and `wrapTexCoord`

A finite `float` is the rational number it denotes. An arithmetic operation yields the
exact result rounded to the nearest single-precision number, ties to even, which is the
rounding of `x - y` on the host and on the device. Results beyond the largest finite
`float` are outside the model; the differences `x - floorf( x )` formed here lie between
0 and 1. -/

/-- The nearest integer, ties to even. -/
def roundTiesEven (q : ℚ) : Int :=
  let f := ⌊q⌋
  let d := q - f
  if d < 1 / 2 then f else if 1 / 2 < d then f + 1 else if f % 2 = 0 then f else f + 1

/-- The binary exponent of the single-precision binade of `q`: the greatest `e` with
`2^e ≤ |q|`, and `-126` in the subnormal range. -/
def f32Exponent (q : ℚ) : Int := max (Int.log 2 |q|) (-126)

/-- Rounding to single precision: 24 significant bits, round to nearest, ties to even. -/
def roundF32 (q : ℚ) : ℚ :=
  roundTiesEven (q / 2 ^ (f32Exponent q - 23)) * 2 ^ (f32Exponent q - 23)

/-- A rational number that is a finite `float`. -/
def IsFloat32 (q : ℚ) : Prop := roundF32 q = q ∧ |q| < 2 ^ 128

/-- The `float` difference `a - b`. -/
def fsub (a b : ℚ) : ℚ := roundF32 (a - b)

/-- Library function `floorf( x )`; the floor of a `float` is a `float`. -/
def floorf (x : ℚ) : ℚ := ⌊x⌋

/-- Helper `maxf( x, y )`: `std::max` on the host, `fmaxf` on the device. -/
def maxf (x y : ℚ) : ℚ := if x < y then y else x

/-- Helper `minf( x, y )`: `std::min` on the host, `fminf` on the device. -/
def minf (x y : ℚ) : ℚ := if y < x then y else x

/-- Helper `clampf( f, a, b )`: `maxf( a, minf( f, b ) )`. -/
def clampf (f a b : ℚ) : ℚ := maxf a (minf f b)

/-- Enumeration `CUaddress_mode`. -/
inductive CUaddress_mode where
  | CU_TR_ADDRESS_MODE_WRAP
  | CU_TR_ADDRESS_MODE_CLAMP
  | CU_TR_ADDRESS_MODE_MIRROR
  | CU_TR_ADDRESS_MODE_BORDER
  deriving DecidableEq

/-- The constant `firstFloatLessThanOne` of both headers. -/
def firstFloatLessThanOne : ℚ := 0.999999940395355224609375

/-- Function `wrapTexCoord` of the 2022 header:
`( addressMode == CU_TR_ADDRESS_MODE_WRAP ) ? x - floorf( x )
 : clampf( x, 0.0f, firstFloatLessThanOne )`. -/
def HW.wrapTexCoord (x : ℚ) (addressMode : CUaddress_mode) : ℚ :=
  if addressMode = CUaddress_mode.CU_TR_ADDRESS_MODE_WRAP then fsub x (floorf x)
  else clampf x 0 firstFloatLessThanOne

/-- Function `wrapTexCoord` of the 2023 header: in wrap mode `x = x - floorf( x )`, then
`clampf( x, 0.0f, firstFloatLessThanOne )` in every mode. -/
def RM.wrapTexCoord (x : ℚ) (addressMode : CUaddress_mode) : ℚ :=
  let x := if addressMode = CUaddress_mode.CU_TR_ADDRESS_MODE_WRAP then fsub x (floorf x) else x
  clampf x 0 firstFloatLessThanOne

/-! ## The item pool -/

/-- Modelled from the spec: class `ItemPool`, whose header `Memory/ItemPool.h` is not among
the sources (only its test is). A pool of fixed-size items with LIFO free-list reuse: a
freed item is pushed on the free list, `allocate` hands out the most recently freed item
and takes a fresh slot from the allocator when the free list is empty, and `size` counts
the items currently allocated. An item is identified by the number of its slot. -/
structure ItemPool where
  freeItems : List Nat
  numSlots : Nat
  m_size : Nat
  deriving DecidableEq

namespace ItemPool

/-- Modelled from the spec: a freshly constructed `ItemPool`, the first half of the test
`Unused`. -/
def empty : ItemPool := ⟨[], 0, 0⟩

/-- Modelled from the spec: `ItemPool::allocate()`, returning the item and the pool
afterwards. -/
def allocate (pool : ItemPool) : Nat × ItemPool :=
  match pool.freeItems with
  | item :: rest => (item, { pool with freeItems := rest, m_size := pool.m_size + 1 })
  | [] => (pool.numSlots,
           { pool with numSlots := pool.numSlots + 1, m_size := pool.m_size + 1 })

/-- Modelled from the spec: `ItemPool::free( item )`. -/
def free (item : Nat) (pool : ItemPool) : ItemPool :=
  { pool with freeItems := item :: pool.freeItems, m_size := pool.m_size - 1 }

/-- Modelled from the spec: `ItemPool::size()`. -/
def size (pool : ItemPool) : Nat := pool.m_size

end ItemPool

/-- A call made on an item pool by its user. -/
inductive ItemPoolOp where
  | allocate
  | free (item : Nat)

/-- The number of `allocate` calls of a sequence. -/
def ItemPoolOp.numAllocates : List ItemPoolOp → Nat
  | [] => 0
  | ItemPoolOp.allocate :: ops => numAllocates ops + 1
  | ItemPoolOp.free _ :: ops => numAllocates ops

/-- The number of `free` calls of a sequence. -/
def ItemPoolOp.numFrees : List ItemPoolOp → Nat
  | [] => 0
  | ItemPoolOp.allocate :: ops => numFrees ops
  | ItemPoolOp.free _ :: ops => numFrees ops + 1

/-- A sequence of calls run on a pool, together with the list of the items that are
currently allocated; the result is `none` when a call frees an item that is not currently
allocated. -/
def ItemPool.run : List ItemPoolOp → ItemPool × List Nat → Option (ItemPool × List Nat)
  | [], state => some state
  | ItemPoolOp.allocate :: ops, (pool, live) =>
    ItemPool.run ops ((pool.allocate).2, (pool.allocate).1 :: live)
  | ItemPoolOp.free item :: ops, (pool, live) =>
    if item ∈ live then ItemPool.run ops (pool.free item, live.erase item) else none

/-! ## The tiling adapter `TiledImageSource`

Only the test of the adapter is among the sources; the adapter and the image it wraps are
modelled from the specification and from what the test observes. The calls made on the
wrapped image are appended, oldest first, to the log `baseCalls`. -/

/-- Modelled from the spec: struct `TextureInfo`, with the fields that the test sets;
`TextureInfo.h` is not among the sources. -/
structure TextureInfo where
  width : Nat
  height : Nat
  format : Nat
  numChannels : Nat
  numMipLevels : Nat
  isValid : Bool
  isTiled : Bool
  deriving DecidableEq

/-- Modelled from the spec: struct `Tile{ x, y, width, height }`. -/
structure Tile where
  x : Nat
  y : Nat
  width : Nat
  height : Nat
  deriving DecidableEq

/-- Modelled from the spec: the image wrapped by the adapter (the image-data provider; the
mock of the test). `info` is what its `open` writes and its `getInfo` returns;
`readMipLevel mipLevel width height stream` and `readTile mipLevel tile stream` are the
bytes that the call writes, in row-major order, or `none` when it returns `false`;
`numTilesRead` is what its `getNumTilesRead` returns. -/
structure BaseImage where
  info : TextureInfo
  readMipLevel : Nat → Nat → Nat → CUstream → Option (List Nat)
  readTile : Nat → Tile → CUstream → Option (List Nat)
  numTilesRead : Nat

/-- A call made by the adapter on the image it wraps. -/
inductive BaseImageCall where
  | open
  | getInfo
  | readMipLevel (mipLevel width height : Nat) (stream : CUstream)
  | readTile (mipLevel : Nat) (tile : Tile) (stream : CUstream)
  | getNumTilesRead
  deriving DecidableEq

/-- Modelled from the spec: class `TiledImageSource`, whose sources are not among the
files (only its test is): the adapter that presents an untiled image as a tiled one and
passes a tiled image through. `m_mipLevels` holds the levels read from the wrapped image
so far. Two parameters are not fixed by the specification: `getBytesPerChannel`, the size
of a channel of a pixel format, and `tileOrigin`, the position in the level of the first
pixel of a tile, which is `tileGridOrigin` when `x` and `y` of a tile count tiles and
`tilePixelOrigin` when they are a pixel position. -/
structure TiledImageSource where
  m_baseImage : BaseImage
  getBytesPerChannel : Nat → Nat
  tileOrigin : Tile → Nat × Nat
  m_baseIsTiled : Bool
  m_tiledInfo : TextureInfo
  m_mipLevels : Nat → Option (List Nat)
  m_numTilesRead : Nat
  baseCalls : List BaseImageCall

/-- Modelled from the spec: the copy of a rectangle out of a level, "a direct full-level
read cropped to that rectangle": `rows` rows of `rowSize` bytes, row `i` starting at byte
`start + i * stride` of `source`, written one after the other. -/
def copyRows (source : List Nat) (stride rowSize : Nat) : Nat → Nat → List Nat
  | _, 0 => []
  | start, rows + 1 =>
    (source.drop start).take rowSize ++ copyRows source stride rowSize (start + stride) rows

namespace TiledImageSource

/-- Modelled from the spec: the constructor `TiledImageSource( baseImage )`; before `open`
the info is invalid and nothing has been read. -/
def create (baseImage : BaseImage) (getBytesPerChannel : Nat → Nat)
    (tileOrigin : Tile → Nat × Nat) : TiledImageSource where
  m_baseImage := baseImage
  getBytesPerChannel := getBytesPerChannel
  tileOrigin := tileOrigin
  m_baseIsTiled := false
  m_tiledInfo := ⟨0, 0, 0, 0, 0, false, false⟩
  m_mipLevels := fun _ => none
  m_numTilesRead := 0
  baseCalls := []

/-- Modelled from the spec: `open( info )`. The wrapped image is opened and its info is
kept with `isTiled` set ("untiled image wrapped by the tiling adapter reports
`isTiled = true`"); the info is written to the caller when the pointer is not null,
`wantsInfo`. The result is the info written, if any, and the adapter afterwards. -/
def «open» (wantsInfo : Bool) (source : TiledImageSource) :
    Option TextureInfo × TiledImageSource :=
  let baseInfo := source.m_baseImage.info
  let source := { source with
    baseCalls := source.baseCalls ++ [BaseImageCall.open]
    m_baseIsTiled := baseInfo.isTiled
    m_tiledInfo := { baseInfo with isTiled := true } }
  (if wantsInfo then some source.m_tiledInfo else none, source)

/-- Modelled from the spec: `getInfo()`. Over an untiled image the adapter answers with
its own info; a tiled image is asked. -/
def getInfo (source : TiledImageSource) : TextureInfo × TiledImageSource :=
  if source.m_baseIsTiled then
    (source.m_baseImage.info,
     { source with baseCalls := source.baseCalls ++ [BaseImageCall.getInfo] })
  else (source.m_tiledInfo, source)

/-- The width in pixels of a mip level of the opened image. -/
def levelWidth (source : TiledImageSource) (mipLevel : Nat) : Nat :=
  calculateLevelDim mipLevel source.m_tiledInfo.width

/-- The height in pixels of a mip level of the opened image. -/
def levelHeight (source : TiledImageSource) (mipLevel : Nat) : Nat :=
  calculateLevelDim mipLevel source.m_tiledInfo.height

/-- The size of a pixel in bytes: `getBytesPerChannel( format ) * numChannels`. -/
def pixelSizeInBytes (source : TiledImageSource) : Nat :=
  source.getBytesPerChannel source.m_tiledInfo.format * source.m_tiledInfo.numChannels

/-- Modelled from the spec: `readTile( dest, mipLevel, tile, stream )`. A tiled image is
passed through. Over an untiled image the level is read from the wrapped image with
`readMipLevel` the first time it is needed and kept, the rectangle of the tile is copied
out of it, and the read counter goes up by one. The result is the bytes written to `dest`
(`none` when the call returns `false`) and the adapter afterwards. -/
def readTile (mipLevel : Nat) (tile : Tile) (stream : CUstream) (source : TiledImageSource) :
    Option (List Nat) × TiledImageSource :=
  if source.m_baseIsTiled then
    (source.m_baseImage.readTile mipLevel tile stream,
     { source with
       baseCalls := source.baseCalls ++ [BaseImageCall.readTile mipLevel tile stream] })
  else
    let width := source.levelWidth mipLevel
    let height := source.levelHeight mipLevel
    let fetched : Option (List Nat) × TiledImageSource :=
      match source.m_mipLevels mipLevel with
      | some level => (some level, source)
      | none =>
        let source := { source with
          baseCalls := source.baseCalls
            ++ [BaseImageCall.readMipLevel mipLevel width height stream] }
        match source.m_baseImage.readMipLevel mipLevel width height stream with
        | none => (none, source)
        | some level =>
          (some level,
           { source with
             m_mipLevels := fun l => if l = mipLevel then some level else source.m_mipLevels l })
    match fetched with
    | (none, source) => (none, source)
    | (some level, source) =>
      let pixelSize := source.pixelSizeInBytes
      let origin := source.tileOrigin tile
      (some (copyRows level (width * pixelSize) (tile.width * pixelSize)
              ((origin.2 * width + origin.1) * pixelSize) tile.height),
       { source with m_numTilesRead := source.m_numTilesRead + 1 })

/-- Modelled from the spec: `getNumTilesRead()`; a tiled image is asked for its own
count. -/
def getNumTilesRead (source : TiledImageSource) : Nat × TiledImageSource :=
  if source.m_baseIsTiled then
    (source.m_baseImage.numTilesRead,
     { source with baseCalls := source.baseCalls ++ [BaseImageCall.getNumTilesRead] })
  else (source.m_numTilesRead, source)

/-- A sequence of `readTile` calls on one mip level, each with its tile and stream. -/
def readTiles (mipLevel : Nat) : List (Tile × CUstream) → TiledImageSource → TiledImageSource
  | [], source => source
  | (tile, stream) :: rest, source =>
    readTiles mipLevel rest (source.readTile mipLevel tile stream).2

end TiledImageSource

/-- A tile origin that reads `x` and `y` of a tile as counts of tiles. -/
def tileGridOrigin (tile : Tile) : Nat × Nat := (tile.x * tile.width, tile.y * tile.height)

/-- A tile origin that reads `x` and `y` of a tile as a pixel position. -/
def tilePixelOrigin (tile : Tile) : Nat × Nat := (tile.x, tile.y)

/-- An untiled image of 4 by 2 one-byte pixels with a single mip level, whose pixel
`(x, y)` holds `10 * y + x`. -/
def sampleImage : BaseImage where
  info := ⟨4, 2, 1, 1, 1, true, false⟩
  readMipLevel := fun _ _ _ _ => some [0, 1, 2, 3, 10, 11, 12, 13]
  readTile := fun _ _ _ => none
  numTilesRead := 0

/-! ## The footprint tile coordinate of the 2022 header -/

/-- Function `wrapFootprintTileCoord( x, dx, tileX, levelWidthInTiles )` of the 2022
header. `x` is `int`, the other three are `unsigned int`: the sums `x + dx`,
`x += 8 * tileX`, `x += levelWidthInTiles` and the difference `x -= levelWidthInTiles` are
formed in `unsigned int` and converted back to `int`. -/
def HW.wrapFootprintTileCoord (x : Int) (dx tileX levelWidthInTiles : Nat) : Int :=
  -- Toroidal rotation
  let x := if uadd (toUInt32 x) dx ≥ 8 then isub x 8 else x
  -- Fix spillover that happens on small levels sometimes
  let x := if x > toInt32 levelWidthInTiles then 0 else x
  -- Add base tile contribution
  let x := toInt32 (uadd (toUInt32 x) (umul 8 tileX))
  -- Wrap the tile coord
  let x := if x < 0 then toInt32 (uadd (toUInt32 x) levelWidthInTiles) else x
  let x := if x ≥ toInt32 levelWidthInTiles then toInt32 (usub (toUInt32 x) levelWidthInTiles)
           else x
  x

/-! ## Basic facts about the machine-integer operations -/

theorem toInt32_of_range {z : Int} (h0 : -2 ^ 31 ≤ z) (h1 : z < 2 ^ 31) : toInt32 z = z := by
  unfold toInt32
  omega

theorem toInt32_of_nonneg {z : Int} (h0 : 0 ≤ z) (h1 : z < 2 ^ 31) : toInt32 z = z :=
  toInt32_of_range (by omega) h1

theorem toUInt32_of_nonneg {z : Int} (h0 : 0 ≤ z) (h1 : z < 2 ^ 32) : toUInt32 z = z.toNat := by
  unfold toUInt32
  rw [Int.emod_eq_of_lt h0 h1]

theorem iadd_of_nonneg {a b : Int} (h0 : 0 ≤ a + b) (h1 : a + b < 2 ^ 31) : iadd a b = a + b :=
  toInt32_of_nonneg h0 h1

theorem imul_of_nonneg {a b : Int} (h0 : 0 ≤ a * b) (h1 : a * b < 2 ^ 31) : imul a b = a * b :=
  toInt32_of_nonneg h0 h1

theorem idiv_of_nonneg {a b : Int} (ha : 0 ≤ a) (ha1 : a < 2 ^ 31) (hb : 0 < b) :
    idiv a b = a / b := by
  unfold idiv
  rw [Int.tdiv_eq_ediv ha (le_of_lt hb)]
  have h1 : 0 ≤ a / b := Int.ediv_nonneg ha (le_of_lt hb)
  have h2 : a / b ≤ a := Int.ediv_le_self b ha
  exact toInt32_of_nonneg h1 (by omega)

theorem imod_of_nonneg {a b : Int} (ha : 0 ≤ a) (hb : 0 ≤ b) : imod a b = a % b :=
  Int.tmod_eq_emod ha hb

/-- On 32-bit values the mask `0xfffffff8` clears the three low bits. -/
theorem and_0xfffffff8 (x : Nat) (hx : x < 2 ^ 32) : x &&& 0xfffffff8 = 8 * (x / 8) := by
  apply Nat.eq_of_testBit_eq
  intro i
  have hm : (0xfffffff8 : Nat) = 2 ^ 3 * (2 ^ 29 - 1) := by norm_num
  have h8 : (8 : Nat) = 2 ^ 3 := by norm_num
  rw [Nat.testBit_and, hm, h8, Nat.testBit_mul_pow_two, Nat.testBit_mul_pow_two,
    Nat.testBit_two_pow_sub_one, ← Nat.shiftRight_eq_div_pow, Nat.testBit_shiftRight]
  by_cases h3 : i ≥ 3
  · have e : 3 + (i - 3) = i := by omega
    by_cases h32 : i < 32
    · have : i - 3 < 29 := by omega
      simp [h3, this, e]
    · have hlt : x < 2 ^ i :=
        lt_of_lt_of_le hx (Nat.pow_le_pow_right (by norm_num) (by omega))
      simp [Nat.testBit_lt_two_pow hlt, e]
  · simp [h3]

theorem usub_of_le {a b : Nat} (hba : b ≤ a) (ha : a < 2 ^ 32) : usub a b = a - b := by
  unfold usub
  have hb : b % 2 ^ 32 = b := Nat.mod_eq_of_lt (by omega)
  rw [hb]
  omega

/-- The ceiling of a quotient of naturals is `(a + b - 1) / b`. -/
theorem natCeil_div (a b : Nat) (hb : 0 < b) : ⌈(a : ℚ) / (b : ℚ)⌉₊ = (a + b - 1) / b := by
  have hbq : (0 : ℚ) < (b : ℚ) := by exact_mod_cast hb
  apply le_antisymm
  · rw [Nat.ceil_le, div_le_iff₀ hbq]
    have h1 := Nat.div_add_mod (a + b - 1) b
    have h2 := Nat.mod_lt (a + b - 1) hb
    have h3 : a ≤ (a + b - 1) / b * b := by
      rw [Nat.mul_comm]
      generalize b * ((a + b - 1) / b) = Q at *
      omega
    exact_mod_cast h3
  · have h1 : (a : ℚ) / (b : ℚ) ≤ (⌈(a : ℚ) / (b : ℚ)⌉₊ : ℚ) := Nat.le_ceil _
    rw [div_le_iff₀ hbq] at h1
    have h2 : a ≤ ⌈(a : ℚ) / (b : ℚ)⌉₊ * b := by exact_mod_cast h1
    generalize ⌈(a : ℚ) / (b : ℚ)⌉₊ = c at *
    have h3 : a + b - 1 < (c + 1) * b := by
      rw [Nat.add_mul, Nat.one_mul]
      omega
    exact Nat.lt_succ_iff.mp ((Nat.div_lt_iff_lt_mul hb).mpr h3)

/-- The ceiling of an eighth. -/
theorem natCeil_div_eight (a : Nat) : ⌈(a : ℚ) / 8⌉₊ = (a + 7) / 8 := by
  have h := natCeil_div a 8 (by norm_num)
  simpa using h

/-! ## The level scan -/

/-- The scan entered at `m` stops at the greatest level `i ≤ m` whose `nextMipLevelStart`
exceeds the tile index. -/
theorem unpackTileIndexLoop_found (coords : Int → Int → Nat × Nat) (s : TextureSampler)
    (t i : Nat) (hi : t < nextMipLevelStart s i) :
    ∀ m, i ≤ m → (∀ j, i < j → j ≤ m → nextMipLevelStart s j ≤ t) →
      unpackTileIndexLoop coords s t m = unpackInLevel coords s t i := by
  intro m
  induction m with
  | zero =>
    intro him _
    have hi0 : i = 0 := by omega
    subst hi0
    simp [unpackTileIndexLoop, hi]
  | succ m ih =>
    intro him hskip
    by_cases hlast : i = m + 1
    · subst hlast
      simp [unpackTileIndexLoop, hi]
    · have hge : ¬ t < nextMipLevelStart s (m + 1) :=
        Nat.not_lt.mpr (hskip (m + 1) (by omega) (le_refl _))
      simp only [unpackTileIndexLoop, hge, if_false]
      exact ih (by omega) (fun j hij hjm => hskip j hij (by omega))

/-- The scan entered at `m` falls through to `(0, 0, 0)` when no level up to `m` has a
`nextMipLevelStart` above the tile index. -/
theorem unpackTileIndexLoop_none (coords : Int → Int → Nat × Nat) (s : TextureSampler)
    (t : Nat) :
    ∀ m, (∀ j, j ≤ m → nextMipLevelStart s j ≤ t) →
      unpackTileIndexLoop coords s t m = (0, 0, 0) := by
  intro m
  induction m with
  | zero =>
    intro h
    have h0 : ¬ t < nextMipLevelStart s 0 := Nat.not_lt.mpr (h 0 (le_refl _))
    simp [unpackTileIndexLoop, h0]
  | succ m ih =>
    intro h
    have hge : ¬ t < nextMipLevelStart s (m + 1) := Nat.not_lt.mpr (h (m + 1) (le_refl _))
    simp only [unpackTileIndexLoop, hge, if_false]
    exact ih (fun j hj => h j (by omega))

/-- With decreasing starts, a lower level starts no earlier than a higher one. -/
theorem StartsDecreasing.start_le {s : TextureSampler} (hs : StartsDecreasing s) :
    ∀ j i, i ≤ j → j ≤ s.mipTailFirstLevel → levelStart s j ≤ levelStart s i := by
  intro j
  induction j with
  | zero =>
    intro i hij _
    have : i = 0 := by omega
    subst this
    exact le_refl _
  | succ j ih =>
    intro i hij hjn
    by_cases h : i = j + 1
    · subst h
      exact le_refl _
    · have h1 := hs.1 j (by omega)
      have h2 := ih i (by omega) (by omega)
      omega

/-- With decreasing starts, every `nextMipLevelStart` above level `i` is at most
`mipLevelStart(i)`. -/
theorem StartsDecreasing.next_le {s : TextureSampler} (hs : StartsDecreasing s)
    (i j : Nat) (hij : i < j) (hjn : j ≤ s.mipTailFirstLevel) :
    nextMipLevelStart s j ≤ levelStart s i := by
  have hj : j > 0 := by omega
  have := hs.start_le (j - 1) i (by omega) (by omega)
  simpa [nextMipLevelStart, hj, levelStart] using this

/-- With decreasing starts, every `nextMipLevelStart` is at most `numPages`. -/
theorem StartsDecreasing.next_le_numPages {s : TextureSampler} (hs : StartsDecreasing s)
    (i : Nat) (hin : i ≤ s.mipTailFirstLevel) : nextMipLevelStart s i ≤ s.numPages := by
  by_cases hi : i > 0
  · have := hs.start_le (i - 1) 0 (by omega) (by omega)
    have h0 := hs.2
    simp only [nextMipLevelStart, hi, if_true]
    simp only [levelStart] at this h0
    omega
  · simp [nextMipLevelStart, hi]

/-! ## The 8x8-block layout without wrap-around -/

namespace HW

/-- In range, `getPageOffsetFromTileCoords` is the exact block-interleaved offset. -/
theorem getPageOffsetFromTileCoords_exact (x y w : Int) (hw : 1 ≤ w) (hw7 : w + 7 < 2 ^ 31)
    (hx : 0 ≤ x) (hy : 0 ≤ y)
    (hp : 64 * ((w + 7) / 8 * (y / 8)) + 64 * (x / 8) + 8 * (y % 8) + x % 8 < 2 ^ 31) :
    getPageOffsetFromTileCoords x y w
      = 64 * ((w + 7) / 8 * (y / 8)) + 64 * (x / 8) + 8 * (y % 8) + x % 8 := by
  have hW : 0 < (w + 7) / 8 := by omega
  have hA : 0 ≤ y / 8 := by omega
  have hWA : 0 ≤ (w + 7) / 8 * (y / 8) := Int.mul_nonneg (le_of_lt hW) hA
  have hyle : y / 8 ≤ (w + 7) / 8 * (y / 8) := by nlinarith
  have hy31 : y < 2 ^ 31 := by omega
  have hx31 : x < 2 ^ 31 := by omega
  unfold getPageOffsetFromTileCoords
  simp only []
  rw [iadd_of_nonneg (by omega) hw7, idiv_of_nonneg (by omega) hw7 (by norm_num),
    idiv_of_nonneg hy hy31 (by norm_num), idiv_of_nonneg hx hx31 (by norm_num),
    imod_of_nonneg hy (by norm_num), imod_of_nonneg hx (by norm_num)]
  have e1 : imul ((w + 7) / 8) (y / 8) = (w + 7) / 8 * (y / 8) :=
    imul_of_nonneg hWA (by omega)
  rw [e1]
  generalize (w + 7) / 8 * (y / 8) = WA at *
  have e2 : imul 64 WA = 64 * WA := imul_of_nonneg (by omega) (by omega)
  have e3 : imul 64 (x / 8) = 64 * (x / 8) := imul_of_nonneg (by omega) (by omega)
  have e4 : imul 8 (y % 8) = 8 * (y % 8) := imul_of_nonneg (by omega) (by omega)
  rw [e2, e3, e4]
  have e5 : iadd (64 * WA) (64 * (x / 8)) = 64 * WA + 64 * (x / 8) :=
    iadd_of_nonneg (by omega) (by omega)
  rw [e5]
  have e6 : iadd (64 * WA + 64 * (x / 8)) (8 * (y % 8)) = 64 * WA + 64 * (x / 8) + 8 * (y % 8) :=
    iadd_of_nonneg (by omega) (by omega)
  rw [e6]
  exact iadd_of_nonneg (by omega) (by omega)

/-- In range, `getTileCoordsFromPageOffset` splits the offset into block and in-block
coordinates. -/
theorem getTileCoordsFromPageOffset_exact (p w : Int) (hw : 1 ≤ w) (hw7 : w + 7 < 2 ^ 31)
    (hp0 : 0 ≤ p) (hp : p < 2 ^ 31) :
    getTileCoordsFromPageOffset p w
      = ((p / 64 % ((w + 7) / 8) * 8 + p % 64 % 8).toNat,
         (p / 64 / ((w + 7) / 8) * 8 + p % 64 / 8).toNat) := by
  have hW : 0 < (w + 7) / 8 := by omega
  have hB : 0 ≤ p / 64 := by omega
  have hB31 : p / 64 < 2 ^ 25 := by omega
  have hxb0 : 0 ≤ p / 64 % ((w + 7) / 8) := Int.emod_nonneg _ (ne_of_gt hW)
  have hxb1 : p / 64 % ((w + 7) / 8) < (w + 7) / 8 := Int.emod_lt_of_pos _ hW
  have hyb0 : 0 ≤ p / 64 / ((w + 7) / 8) := Int.ediv_nonneg hB (le_of_lt hW)
  have hyb1 : p / 64 / ((w + 7) / 8) ≤ p / 64 := Int.ediv_le_self _ hB
  unfold getTileCoordsFromPageOffset
  simp only []
  rw [iadd_of_nonneg (by omega) hw7, idiv_of_nonneg (by omega) hw7 (by norm_num),
    idiv_of_nonneg hp0 hp (by norm_num), imod_of_nonneg hp0 (by norm_num),
    imod_of_nonneg hB (le_of_lt hW), idiv_of_nonneg hB (by omega) hW,
    imod_of_nonneg (by omega) (by norm_num), idiv_of_nonneg (by omega) (by omega) (by norm_num)]
  generalize p / 64 % ((w + 7) / 8) = xb at *
  generalize p / 64 / ((w + 7) / 8) = yb at *
  have e1 : imul xb 8 = xb * 8 := imul_of_nonneg (by omega) (by omega)
  have e2 : imul yb 8 = yb * 8 := imul_of_nonneg (by omega) (by omega)
  rw [e1, e2]
  have e3 : iadd (xb * 8) (p % 64 % 8) = xb * 8 + p % 64 % 8 :=
    iadd_of_nonneg (by omega) (by omega)
  have e4 : iadd (yb * 8) (p % 64 / 8) = yb * 8 + p % 64 / 8 :=
    iadd_of_nonneg (by omega) (by omega)
  rw [e3, e4, toUInt32_of_nonneg (by omega) (by omega), toUInt32_of_nonneg (by omega) (by omega)]

/-- Arithmetic core of the round trip: splitting the block-interleaved offset of `(x, y)`
gives back `x` and `y`. -/
theorem split_offset (x y W : Int) (hx : 0 ≤ x) (hxW : x / 8 < W) :
    (64 * (W * (y / 8)) + 64 * (x / 8) + 8 * (y % 8) + x % 8) / 64 % W * 8
        + (64 * (W * (y / 8)) + 64 * (x / 8) + 8 * (y % 8) + x % 8) % 64 % 8 = x
    ∧ (64 * (W * (y / 8)) + 64 * (x / 8) + 8 * (y % 8) + x % 8) / 64 / W * 8
        + (64 * (W * (y / 8)) + 64 * (x / 8) + 8 * (y % 8) + x % 8) % 64 / 8 = y := by
  have hb0 : 0 ≤ x / 8 := by omega
  have hW : 0 < W := by omega
  have hq : (64 * (W * (y / 8)) + 64 * (x / 8) + 8 * (y % 8) + x % 8) / 64
      = x / 8 + W * (y / 8) := by
    generalize W * (y / 8) = WA
    omega
  have hr : (64 * (W * (y / 8)) + 64 * (x / 8) + 8 * (y % 8) + x % 8) % 64
      = 8 * (y % 8) + x % 8 := by
    generalize W * (y / 8) = WA
    omega
  have hxb : (x / 8 + W * (y / 8)) % W = x / 8 := by
    rw [Int.add_mul_emod_self_left]
    exact Int.emod_eq_of_lt hb0 hxW
  have hyb : (x / 8 + W * (y / 8)) / W = y / 8 := by
    rw [Int.add_mul_ediv_left _ _ (ne_of_gt hW), Int.ediv_eq_zero_of_lt hb0 hxW]
    omega
  rw [hq, hr, hxb, hyb]
  constructor <;> omega

/-- In range, the coordinates of the page offset of `(x, y)` are `(x, y)`. -/
theorem getTileCoords_getPageOffset (x y w : Int) (hw : 1 ≤ w) (hx : 0 ≤ x) (hxw : x < w)
    (hy : 0 ≤ y) (hw7 : w + 7 < 2 ^ 31)
    (hp : 64 * ((w + 7) / 8 * (y / 8)) + 64 * (x / 8) + 8 * (y % 8) + x % 8 < 2 ^ 31) :
    getTileCoordsFromPageOffset (getPageOffsetFromTileCoords x y w) w
      = (x.toNat, y.toNat) := by
  have hWA : 0 ≤ (w + 7) / 8 * (y / 8) :=
    Int.mul_nonneg (by omega) (by omega)
  rw [getPageOffsetFromTileCoords_exact x y w hw hw7 hx hy hp,
    getTileCoordsFromPageOffset_exact _ w hw hw7 (by omega) hp]
  obtain ⟨h1, h2⟩ := split_offset x y ((w + 7) / 8) hx (by omega)
  rw [h1, h2]

/-- The exact offset of a tile with natural coordinates, read as an integer. -/
theorem offset_cast (x y w : Nat) :
    ((64 * ((w + 7) / 8 * (y / 8)) + 64 * (x / 8) + 8 * (y % 8) + x % 8 : Nat) : Int)
      = 64 * (((w : Int) + 7) / 8 * ((y : Int) / 8)) + 64 * ((x : Int) / 8)
        + 8 * ((y : Int) % 8) + (x : Int) % 8 := by
  push_cast
  ring

/-- In range, the page offset of a tile with natural coordinates and the coordinates
recovered from it. -/
theorem offset_round_trip_nat (x y w : Nat) (hx : x < w) (hw7 : w + 7 < 2 ^ 31)
    (hoff : 64 * ((w + 7) / 8 * (y / 8)) + 64 * (x / 8) + 8 * (y % 8) + x % 8 < 2 ^ 31) :
    getPageOffsetFromTileCoords x y w
        = ((64 * ((w + 7) / 8 * (y / 8)) + 64 * (x / 8) + 8 * (y % 8) + x % 8 : Nat) : Int)
      ∧ getTileCoordsFromPageOffset
          ((64 * ((w + 7) / 8 * (y / 8)) + 64 * (x / 8) + 8 * (y % 8) + x % 8 : Nat) : Int) w
        = (x, y) := by
  have hoffInt : 64 * (((w : Int) + 7) / 8 * ((y : Int) / 8)) + 64 * ((x : Int) / 8)
        + 8 * ((y : Int) % 8) + (x : Int) % 8 < 2 ^ 31 := by
    rw [← offset_cast]
    exact_mod_cast hoff
  have hw1 : (1 : Int) ≤ w := by omega
  have hw7i : (w : Int) + 7 < 2 ^ 31 := by omega
  have hx0 : (0 : Int) ≤ x := Int.ofNat_nonneg x
  have hy0 : (0 : Int) ≤ y := Int.ofNat_nonneg y
  have hxw : (x : Int) < w := by omega
  have hexact := getPageOffsetFromTileCoords_exact x y w hw1 hw7i hx0 hy0 hoffInt
  have hrt := getTileCoords_getPageOffset x y w hw1 hx0 hxw hy0 hw7i hoffInt
  rw [hexact] at hrt
  rw [offset_cast]
  refine ⟨hexact, ?_⟩
  rw [hrt]
  simp

/-- The rounded dimension `( d + 7 ) & 0xfffffff8` is `8 * ceil(d / 8)` modulo `2^32`. -/
theorem roundUp8_mod (d : Nat) :
    (uadd d 7 &&& 0xfffffff8) % 2 ^ 32 = 8 * ((d + 7) / 8) % 2 ^ 32 := by
  have hlt : uadd d 7 < 2 ^ 32 := Nat.mod_lt _ (by norm_num)
  rw [and_0xfffffff8 _ hlt]
  unfold uadd
  omega

/-- The number of tiles of a level is the product of the rounded dimensions modulo
`2^32`. -/
theorem calculateNumTilesInLevel_mod (w h : Nat) :
    calculateNumTilesInLevel w h = 8 * ((w + 7) / 8) * (8 * ((h + 7) / 8)) % 2 ^ 32 := by
  unfold calculateNumTilesInLevel umul
  simp only []
  rw [Nat.mul_mod, roundUp8_mod w, roundUp8_mod h, ← Nat.mul_mod]

/-- Every tile of a `w` by `h` level has a block-interleaved offset below the product of
the rounded dimensions. -/
theorem offset_lt_rounded (x y w h : Nat) (hx : x < w) (hy : y < h) :
    64 * ((w + 7) / 8 * (y / 8)) + 64 * (x / 8) + 8 * (y % 8) + x % 8
      < 8 * ((w + 7) / 8) * (8 * ((h + 7) / 8)) := by
  have h1 : (w + 7) / 8 * (y / 8 + 1) ≤ (w + 7) / 8 * ((h + 7) / 8) :=
    Nat.mul_le_mul_left _ (by omega)
  have h2 : 8 * ((w + 7) / 8) * (8 * ((h + 7) / 8)) = 64 * ((w + 7) / 8 * ((h + 7) / 8)) := by
    ring
  rw [h2]
  rw [Nat.mul_add, Nat.mul_one] at h1
  generalize (w + 7) / 8 * (y / 8) = P1 at *
  generalize (w + 7) / 8 * ((h + 7) / 8) = P2 at *
  omega

end HW

/-! ## The invalidation loop -/

/-- The loop of `invalidatePages` appends, for each pending range in order, the call on
the paging system and the deletion of the predicate. -/
theorem DemandPageLoaderImpl.invalidateEach_eq (stream : CUstream) (context : DeviceContext) :
    ∀ (pending : List InvalidationRange) (calls : List Call),
      DemandPageLoaderImpl.invalidateEach stream context pending calls
        = calls ++ pending.flatMap (fun ir =>
            [Call.pagingInvalidatePages ir.startPage ir.endPage ir.predicate context stream,
             Call.deletePredicate ir.predicate]) := by
  intro pending
  induction pending with
  | nil =>
    intro calls
    simp [DemandPageLoaderImpl.invalidateEach]
  | cons ir rest ih =>
    intro calls
    simp [DemandPageLoaderImpl.invalidateEach, ih]

/-! ## Ownership of a page id -/

/-- A tile index inside `[mipLevelStart(i), nextMipLevelStart(i))` is unpacked as a tile of
level `i`, for either header's coordinate function. -/
theorem unpackTileIndexLoop_owner (coords : Int → Int → Nat × Nat) (s : TextureSampler)
    (i t : Nat) (hs : StartsDecreasing s) (hi : i ≤ s.mipTailFirstLevel) (ht : t < 2 ^ 32)
    (hlo : levelStart s i ≤ t) (hhi : t < nextMipLevelStart s i) :
    unpackTileIndexLoop coords s t s.mipTailFirstLevel
      = (i, coords (toInt32 ((t - levelStart s i : Nat) : Int))
              (toInt32 ((levelWidth s i : Nat) : Int))) := by
  rw [unpackTileIndexLoop_found coords s t i hhi s.mipTailFirstLevel hi
    (fun j hij hjn => le_trans (hs.next_le i j hij hjn) hlo)]
  have hu := usub_of_le hlo ht
  simp only [unpackInLevel, levelStart, levelWidth] at hu ⊢
  rw [hu]

/-- What a successful `lastLevelStartingAtMost` says about the level it returns. -/
theorem lastLevelStartingAtMost_some (s : TextureSampler) (t : Nat) :
    ∀ m L, lastLevelStartingAtMost s t m = some L →
      L ≤ m ∧ levelStart s L ≤ t ∧ ∀ j, j < L → t < levelStart s j := by
  intro m
  induction m with
  | zero =>
    intro L h
    simp only [lastLevelStartingAtMost] at h
    split at h
    · cases h
      exact ⟨le_refl _, by assumption, fun j hj => absurd hj (Nat.not_lt_zero j)⟩
    · cases h
  | succ m ih =>
    intro L h
    simp only [lastLevelStartingAtMost] at h
    split at h
    · rename_i lower hlower
      cases h
      obtain ⟨h1, h2, h3⟩ := ih _ hlower
      exact ⟨by omega, h2, h3⟩
    · rename_i hnone
      split at h
      · cases h
        refine ⟨le_refl _, by assumption, ?_⟩
        intro j hj
        by_contra hcon
        have hle : levelStart s j ≤ t := by omega
        -- a lower level with a start at most `t` would have been found
        have : ∀ k, j ≤ k → lastLevelStartingAtMost s t k ≠ none := by
          intro k hk
          induction k with
          | zero =>
            have : j = 0 := by omega
            subst this
            simp [lastLevelStartingAtMost, hle]
          | succ k ihk =>
            by_cases hjk : j = k + 1
            · subst hjk
              simp only [lastLevelStartingAtMost]
              split
              · simp
              · simp [hle]
            · have := ihk (by omega)
              simp only [lastLevelStartingAtMost]
              split
              · simp
              · contradiction
        exact this m (by omega) hnone
      · cases h

/-! ## The claims of the specification, C1 to C10 -/

/-- C1. Hardware (8x8-block) scheme round trip: for every `levelWidthInTiles = w ≥ 1` and
every tile coordinate with `0 ≤ x < w` and `0 ≤ y`, as long as no `int` overflow occurs
(`w + 7` and the page offset are below `2^31`),
`getTileCoordsFromPageOffset( getPageOffsetFromTileCoords( x, y, w ), w )` yields exactly
`( tileX, tileY ) = ( x, y )`. -/
theorem hw_tile_coords_round_trip (x y w : Int) (hw : 1 ≤ w) (hx : 0 ≤ x) (hxw : x < w)
    (hy : 0 ≤ y) (hw7 : w + 7 < 2 ^ 31)
    (hp : 64 * ((w + 7) / 8 * (y / 8)) + 64 * (x / 8) + 8 * (y % 8) + x % 8 < 2 ^ 31) :
    HW.getTileCoordsFromPageOffset (HW.getPageOffsetFromTileCoords x y w) w
      = (x.toNat, y.toNat) :=
  HW.getTileCoords_getPageOffset x y w hw hx hxw hy hw7 hp

/-- Witness for C1: tile `(10, 19)` of a level 13 tiles wide. -/
theorem hw_tile_coords_round_trip_witness :
    HW.getTileCoordsFromPageOffset (HW.getPageOffsetFromTileCoords 10 19 13) 13 = (10, 19) :=
  hw_tile_coords_round_trip 10 19 13 (by decide) (by decide) (by decide) (by decide)
    (by decide) (by decide)

/-- C2. Level ownership in `unpackTileIndex` (both headers): for a sampler with levels
`0..n`, `n = mipTailFirstLevel`, whose starts satisfy
`start(n) < start(n-1) < ... < start(0) ≤ numPages` and whose level widths are at least 1,
every level `i` in `0..n` and every `unsigned int` tile index with
`start(i) ≤ tileIndex < start(i-1)` (`start(-1) = numPages`) is unpacked to
`outMipLevel = i` and
`(outTileX, outTileY) = getTileCoordsFromPageOffset( tileIndex - start(i), levelWidthInTiles(i) )`,
the two `unsigned int` arguments being converted to `int` by the call. -/
theorem unpackTileIndex_level_ownership (s : TextureSampler) (i tileIndex : Nat)
    (hs : StartsDecreasing s) (_hw : WidthsPositive s) (hi : i ≤ s.mipTailFirstLevel)
    (ht : tileIndex < 2 ^ 32)
    (hlo : levelStart s i ≤ tileIndex) (hhi : tileIndex < nextMipLevelStart s i) :
    HW.unpackTileIndex s tileIndex
        = (i, HW.getTileCoordsFromPageOffset
                (toInt32 ((tileIndex - levelStart s i : Nat) : Int))
                (toInt32 ((levelWidth s i : Nat) : Int)))
      ∧ RM.unpackTileIndex s tileIndex
        = (i, RM.getTileCoordsFromPageOffset
                (toInt32 ((tileIndex - levelStart s i : Nat) : Int))
                (toInt32 ((levelWidth s i : Nat) : Int))) :=
  ⟨unpackTileIndexLoop_owner _ s i tileIndex hs hi ht hlo hhi,
   unpackTileIndexLoop_owner _ s i tileIndex hs hi ht hlo hhi⟩

/-- Witness for C2: page 100 of `sampleSampler` lies in level 1, which owns pages
`[64, 128)`; its in-level offset is 36. -/
theorem unpackTileIndex_level_ownership_witness :
    HW.unpackTileIndex sampleSampler 100 = (1, HW.getTileCoordsFromPageOffset 36 6)
      ∧ RM.unpackTileIndex sampleSampler 100 = (1, RM.getTileCoordsFromPageOffset 36 6) :=
  unpackTileIndex_level_ownership sampleSampler 1 100 (by decide) (by decide) (by decide)
    (by decide) (by decide) (by decide)

/-- C3 as stated fails where `calculateNumTilesInLevel` wraps. `wideSampler` has one level
of 65535 by 65535 tiles; the rounded dimensions are `65536 * 65536 = 2^32`, so
`calculateNumTilesInLevel` is 0 and the level fits in the sampler's single page. Tile
`(0, 8)` has page offset 524288, which is not below `numPages`, and is unpacked to
`(0, 0, 0)` instead of `(0, 0, 8)`. -/
theorem hw_unpackTileIndex_inverse_counterexample :
    StartsDecreasing wideSampler ∧ HW.LevelsFit wideSampler (fun _ => 65535)
      ∧ HW.calculateNumTilesInLevel 65535 65535 = 0
      ∧ (0 : Nat) < levelWidth wideSampler 0 ∧ (8 : Nat) < 65535
      ∧ HW.getPageOffsetFromTileCoords 0 8 65535 = 524288
      ∧ HW.unpackTileIndex wideSampler
          (uadd (levelStart wideSampler 0)
            (toUInt32 (HW.getPageOffsetFromTileCoords 0 8 65535))) = (0, 0, 0)
      ∧ HW.unpackTileIndex wideSampler
          (uadd (levelStart wideSampler 0)
            (toUInt32 (HW.getPageOffsetFromTileCoords 0 8 65535))) ≠ (0, 0, 8) := by
  decide

/-- C3, amended. `unpackTileIndex` inverts the page-id assignment of the hardware scheme
when nothing wraps: for every sampler with `unsigned int` page count and strictly
decreasing starts over levels `0..mipTailFirstLevel`, where each level `i` of width
`w_i ≥ 1` and height `h_i ≥ 1` tiles satisfies
`start(i) + calculateNumTilesInLevel( w_i, h_i ) ≤ start(i-1)` (`start(-1) = numPages`), for
every level `i` whose rounded tile count `(8*ceil(w_i/8)) * (8*ceil(h_i/8))` is below `2^32`
and every tile `x < w_i`, `y < h_i` whose page offset is below `2^31`,
`unpackTileIndex( sampler, start(i) + getPageOffsetFromTileCoords( x, y, w_i ) )` returns
`(i, x, y)`. -/
theorem hw_unpackTileIndex_inverse (s : TextureSampler) (heights : Nat → Nat) (i x y : Nat)
    (hs : StartsDecreasing s) (hfit : HW.LevelsFit s heights) (hnp : s.numPages < 2 ^ 32)
    (hi : i ≤ s.mipTailFirstLevel) (hx : x < levelWidth s i) (hy : y < heights i)
    (hcount : 8 * ((levelWidth s i + 7) / 8) * (8 * ((heights i + 7) / 8)) < 2 ^ 32)
    (hoff : 64 * ((levelWidth s i + 7) / 8 * (y / 8)) + 64 * (x / 8) + 8 * (y % 8) + x % 8
      < 2 ^ 31) :
    HW.unpackTileIndex s
        (uadd (levelStart s i)
          (toUInt32 (HW.getPageOffsetFromTileCoords x y (levelWidth s i))))
      = (i, x, y) := by
  obtain ⟨hw1, hh1, hroom⟩ := hfit i hi
  generalize hwdef : levelWidth s i = w at *
  generalize hhdef : heights i = h at *
  -- the rounded width is below 2^29
  have hB : 8 ≤ 8 * ((h + 7) / 8) := by omega
  have hA : 8 * ((w + 7) / 8) * 8 ≤ 8 * ((w + 7) / 8) * (8 * ((h + 7) / 8)) :=
    Nat.mul_le_mul_left _ hB
  have hw7 : w + 7 < 2 ^ 31 := by omega
  -- the level's tile count and the tile's offset
  have hnum : HW.calculateNumTilesInLevel w h = 8 * ((w + 7) / 8) * (8 * ((h + 7) / 8)) := by
    rw [HW.calculateNumTilesInLevel_mod, Nat.mod_eq_of_lt hcount]
  have hlt := HW.offset_lt_rounded x y w h hx hy
  have hnext := hs.next_le_numPages i hi
  have hround := HW.offset_round_trip_nat x y w hx hw7 hoff
  revert hround
  generalize 64 * ((w + 7) / 8 * (y / 8)) + 64 * (x / 8) + 8 * (y % 8) + x % 8 = P at *
  have hP32 : (P : Int) < 2 ^ 32 := by omega
  have hP31 : (P : Int) < 2 ^ 31 := by omega
  have hw31 : (w : Int) < 2 ^ 31 := by omega
  have hsum : levelStart s i + P < 2 ^ 32 := by omega
  have hhi : levelStart s i + P < nextMipLevelStart s i := by omega
  intro hround
  obtain ⟨hexact, hcoords⟩ := hround
  have hidx : uadd (levelStart s i) (toUInt32 (HW.getPageOffsetFromTileCoords x y w))
      = levelStart s i + P := by
    rw [hexact, toUInt32_of_nonneg (Int.ofNat_nonneg P) hP32, Int.toNat_ofNat]
    exact Nat.mod_eq_of_lt hsum
  rw [hidx]
  have hown := unpackTileIndexLoop_owner HW.getTileCoordsFromPageOffset s i
    (levelStart s i + P) hs hi hsum (Nat.le_add_right _ _) hhi
  unfold HW.unpackTileIndex
  rw [hown, hwdef, Nat.add_sub_cancel_left, toInt32_of_nonneg (Int.ofNat_nonneg P) hP31,
    toInt32_of_nonneg (Int.ofNat_nonneg w) hw31, hcoords]

/-- Witness for the amended C3: tile `(5, 9)` of level 0 of `sampleSampler`, 12 by 12
tiles, has page offset 141 and page id 269. -/
theorem hw_unpackTileIndex_inverse_witness :
    HW.unpackTileIndex sampleSampler
        (uadd (levelStart sampleSampler 0)
          (toUInt32 (HW.getPageOffsetFromTileCoords ((5 : Nat) : Int) ((9 : Nat) : Int)
            ((levelWidth sampleSampler 0 : Nat) : Int))))
      = (0, 5, 9) :=
  hw_unpackTileIndex_inverse sampleSampler
    (fun i => if i = 0 then 12 else if i = 1 then 6 else 3) 0 5 9
    (by decide) (by decide) (by decide) (by decide) (by decide) (by decide) (by decide)
    (by decide)

/-- C4. Row-major scheme round trip (2023 header): for every `levelWidthInTiles = w ≥ 1`
and every tile coordinate with `0 ≤ x < w` and `0 ≤ y`, as long as no `int` overflow occurs
(`y * w + x` is below `2^31`),
`getTileCoordsFromPageOffset( getPageOffsetFromTileCoords( x, y, w ), w )` yields exactly
`(x, y)`. -/
theorem rm_tile_coords_round_trip (x y w : Int) (hw : 1 ≤ w) (hx : 0 ≤ x) (hxw : x < w)
    (hy : 0 ≤ y) (hp : y * w + x < 2 ^ 31) :
    RM.getTileCoordsFromPageOffset (RM.getPageOffsetFromTileCoords x y w) w
      = (x.toNat, y.toNat) := by
  have hw0 : 0 < w := by omega
  have hyw : 0 ≤ y * w := Int.mul_nonneg hy (by omega)
  have hyle : y ≤ y * w := by nlinarith
  have hmod : (y * w + x) % w = x := by
    rw [Int.add_comm, Int.add_mul_emod_self]
    exact Int.emod_eq_of_lt hx hxw
  have hdiv : (y * w + x) / w = y := by
    rw [Int.add_comm, Int.add_mul_ediv_right _ _ (ne_of_gt hw0), Int.ediv_eq_zero_of_lt hx hxw]
    omega
  unfold RM.getTileCoordsFromPageOffset RM.getPageOffsetFromTileCoords
  have e1 : imul y w = y * w := imul_of_nonneg hyw (by omega)
  rw [e1]
  have e2 : iadd (y * w) x = y * w + x := iadd_of_nonneg (by omega) hp
  rw [e2, imod_of_nonneg (by omega) (by omega), idiv_of_nonneg (by omega) hp hw0, hmod, hdiv,
    toUInt32_of_nonneg hx (by omega), toUInt32_of_nonneg hy (by omega)]

/-- Witness for C4: tile `(10, 19)` of a level 13 tiles wide. -/
theorem rm_tile_coords_round_trip_witness :
    RM.getTileCoordsFromPageOffset (RM.getPageOffsetFromTileCoords 10 19 13) 13 = (10, 19) :=
  rm_tile_coords_round_trip 10 19 13 (by decide) (by decide) (by decide) (by decide)
    (by decide)

/-- C5. `calculateNumTilesInLevel` of the hardware scheme rounds both dimensions up to
multiples of 8 and multiplies: for every 32-bit unsigned `w` and `h` the result is
`(8 * ceil(w/8)) * (8 * ceil(h/8))` reduced modulo `2^32`, and it is exactly that product
whenever the product fits in 32 bits. -/
theorem hw_calculateNumTilesInLevel_rounds (w h : Nat) (_hw : w < 2 ^ 32) (_hh : h < 2 ^ 32) :
    HW.calculateNumTilesInLevel w h
        = 8 * ⌈(w : ℚ) / 8⌉₊ * (8 * ⌈(h : ℚ) / 8⌉₊) % 2 ^ 32
      ∧ (8 * ⌈(w : ℚ) / 8⌉₊ * (8 * ⌈(h : ℚ) / 8⌉₊) < 2 ^ 32 →
          HW.calculateNumTilesInLevel w h = 8 * ⌈(w : ℚ) / 8⌉₊ * (8 * ⌈(h : ℚ) / 8⌉₊)) := by
  rw [natCeil_div_eight, natCeil_div_eight, HW.calculateNumTilesInLevel_mod]
  exact ⟨rfl, fun hfit => Nat.mod_eq_of_lt hfit⟩

/-- Witness for C5: a level of 13 by 20 tiles. -/
theorem hw_calculateNumTilesInLevel_rounds_witness :
    HW.calculateNumTilesInLevel 13 20
        = 8 * ⌈((13 : Nat) : ℚ) / 8⌉₊ * (8 * ⌈((20 : Nat) : ℚ) / 8⌉₊) % 2 ^ 32
      ∧ (8 * ⌈((13 : Nat) : ℚ) / 8⌉₊ * (8 * ⌈((20 : Nat) : ℚ) / 8⌉₊) < 2 ^ 32 →
          HW.calculateNumTilesInLevel 13 20
            = 8 * ⌈((13 : Nat) : ℚ) / 8⌉₊ * (8 * ⌈((20 : Nat) : ℚ) / 8⌉₊)) :=
  hw_calculateNumTilesInLevel_rounds 13 20 (by decide) (by decide)

/-- C6 as stated fails where the numerator wraps. For `textureDim = 2^32 - 1`,
`mipLevel = 0` and `tileDim = 2` the level dimension is `2^32 - 1`, the `unsigned int` sum
`levelDim + tileDim - 1` wraps to 0 and `getLevelDimInTiles` returns 0, while the ceiling
of `(2^32 - 1) / 2` is `2^31`. -/
theorem getLevelDimInTiles_ceiling_counterexample :
    (4294967295 : Nat) < 2 ^ 32 ∧ (0 : Nat) < 32 ∧ (1 : Nat) ≤ 2
      ∧ getLevelDimInTiles 4294967295 0 2 = 0
      ∧ ⌈((calculateLevelDim 0 4294967295 : Nat) : ℚ) / ((2 : Nat) : ℚ)⌉₊ = 2147483648 := by
  refine ⟨by decide, by decide, by decide, by decide, ?_⟩
  rw [natCeil_div _ _ (by decide)]
  decide

/-- C6, amended. `getLevelDimInTiles` is the ceiling quotient when the numerator does not
wrap: for every 32-bit unsigned `textureDim`, every `mipLevel < 32` and every 32-bit
`tileDim ≥ 1` with `calculateLevelDim( mipLevel, textureDim ) + tileDim - 1 < 2^32`,
`getLevelDimInTiles( textureDim, mipLevel, tileDim )` equals
`ceil( calculateLevelDim( mipLevel, textureDim ) / tileDim )`. -/
theorem getLevelDimInTiles_ceiling (textureDim mipLevel tileDim : Nat)
    (_ht : textureDim < 2 ^ 32) (_hm : mipLevel < 32) (htile : 1 ≤ tileDim)
    (hfit : calculateLevelDim mipLevel textureDim + tileDim - 1 < 2 ^ 32) :
    getLevelDimInTiles textureDim mipLevel tileDim
      = ⌈((calculateLevelDim mipLevel textureDim : Nat) : ℚ) / ((tileDim : Nat) : ℚ)⌉₊ := by
  rw [natCeil_div _ _ htile]
  unfold getLevelDimInTiles
  generalize calculateLevelDim mipLevel textureDim = L at *
  have hnum : usub (uadd L tileDim) 1 = L + tileDim - 1 := by
    unfold usub uadd
    omega
  rw [hnum]

/-- Witness for the amended C6: a 1920-texel dimension at mip level 2 in 64-texel tiles. -/
theorem getLevelDimInTiles_ceiling_witness :
    getLevelDimInTiles 1920 2 64
      = ⌈((calculateLevelDim 2 1920 : Nat) : ℚ) / ((64 : Nat) : ℚ)⌉₊ :=
  getLevelDimInTiles_ceiling 1920 2 64 (by decide) (by decide) (by decide) (by decide)

/-- C7 as stated fails. In `increasingSampler` the starts increase strictly with the level
and page 15 is below `numPages = 20`; the first level, scanning from `mipTailFirstLevel = 1`
down, whose start is at most 15 is level 1 (start 10), in-level offset 5; both headers return
level 0 with the coordinates of offset 15. -/
theorem unpackTileIndex_first_start_counterexample :
    StartsIncreasing increasingSampler ∧ 15 < increasingSampler.numPages
      ∧ firstLevelStartingAtMost increasingSampler 15 increasingSampler.mipTailFirstLevel
          = some 1
      ∧ HW.unpackTileIndex increasingSampler 15 = (0, 7, 1)
      ∧ HW.unpackTileIndex increasingSampler 15
          ≠ (1, HW.getTileCoordsFromPageOffset (15 - 10) 8)
      ∧ RM.unpackTileIndex increasingSampler 15 = (0, 7, 1)
      ∧ RM.unpackTileIndex increasingSampler 15
          ≠ (1, RM.getTileCoordsFromPageOffset (15 - 10) 8) := by
  decide

/-- C7, amended. For every sampler whose `mipLevelStart` values are strictly decreasing
with the level (`start(n) < ... < start(0) ≤ numPages`) and every `unsigned int` tile index
below `numPages`, `unpackTileIndex` (both headers) returns the last level, scanning from
`mipTailFirstLevel` down to 0, whose `mipLevelStart` is at most the tile index, and the tile
coordinates of the in-level offset `tileIndex - mipLevelStart(that level)`. -/
theorem unpackTileIndex_last_start (s : TextureSampler) (tileIndex L : Nat)
    (hs : StartsDecreasing s) (ht : tileIndex < s.numPages) (ht32 : tileIndex < 2 ^ 32)
    (hL : lastLevelStartingAtMost s tileIndex s.mipTailFirstLevel = some L) :
    HW.unpackTileIndex s tileIndex
        = (L, HW.getTileCoordsFromPageOffset
                (toInt32 ((tileIndex - levelStart s L : Nat) : Int))
                (toInt32 ((levelWidth s L : Nat) : Int)))
      ∧ RM.unpackTileIndex s tileIndex
        = (L, RM.getTileCoordsFromPageOffset
                (toInt32 ((tileIndex - levelStart s L : Nat) : Int))
                (toInt32 ((levelWidth s L : Nat) : Int))) := by
  obtain ⟨hLn, hle, hlt⟩ := lastLevelStartingAtMost_some s tileIndex _ L hL
  have hhi : tileIndex < nextMipLevelStart s L := by
    by_cases h0 : L > 0
    · have := hlt (L - 1) (by omega)
      simpa [nextMipLevelStart, h0, levelStart] using this
    · simpa [nextMipLevelStart, h0] using ht
  exact ⟨unpackTileIndexLoop_owner _ s L tileIndex hs hLn ht32 hle hhi,
    unpackTileIndexLoop_owner _ s L tileIndex hs hLn ht32 hle hhi⟩

/-- Witness for the amended C7: in `sampleSampler` the levels starting at or below page 300
are 2, 1 and 0, and level 0 (start 128) is the last one of the scan. -/
theorem unpackTileIndex_last_start_witness :
    HW.unpackTileIndex sampleSampler 300 = (0, HW.getTileCoordsFromPageOffset 172 12)
      ∧ RM.unpackTileIndex sampleSampler 300 = (0, RM.getTileCoordsFromPageOffset 172 12) :=
  unpackTileIndex_last_start sampleSampler 300 0 (by decide) (by decide) (by decide)
    (by decide)

/-- C8. Fallback of `unpackTileIndex` (both headers): for every sampler and every tile
index that matches no level, that is `tileIndex ≥ numPages` and
`tileIndex ≥ mipLevelStart(j-1)` for every level `j` with `1 ≤ j ≤ mipTailFirstLevel`, the
outputs are `(outMipLevel, outTileX, outTileY) = (0, 0, 0)`. -/
theorem unpackTileIndex_fallback (s : TextureSampler) (tileIndex : Nat)
    (hnp : s.numPages ≤ tileIndex)
    (hall : ∀ j, 1 ≤ j → j ≤ s.mipTailFirstLevel → levelStart s (j - 1) ≤ tileIndex) :
    HW.unpackTileIndex s tileIndex = (0, 0, 0)
      ∧ RM.unpackTileIndex s tileIndex = (0, 0, 0) := by
  have hnone : ∀ j, j ≤ s.mipTailFirstLevel → nextMipLevelStart s j ≤ tileIndex := by
    intro j hj
    by_cases h0 : j > 0
    · have := hall j (by omega) hj
      simpa [nextMipLevelStart, h0, levelStart] using this
    · simpa [nextMipLevelStart, h0] using hnp
  exact ⟨unpackTileIndexLoop_none _ s tileIndex _ hnone,
    unpackTileIndexLoop_none _ s tileIndex _ hnone⟩

/-- Witness for C8: page 500 of `sampleSampler` is beyond its 448 pages and beyond the
starts 128 and 64 of levels 0 and 1. -/
theorem unpackTileIndex_fallback_witness :
    HW.unpackTileIndex sampleSampler 500 = (0, 0, 0)
      ∧ RM.unpackTileIndex sampleSampler 500 = (0, 0, 0) :=
  unpackTileIndex_fallback sampleSampler 500 (by decide) (by decide)

/-- C9. Invalidation ranges are drained before the push: for every loader state, stream
and pending list at entry to `pushMappings`, the calls that `pushMappings` makes are, in
this order, `allocateDeviceContext`, then for each queued range in queue order one
`invalidatePages` of the paging system with the range's own `startPage`, `endPage` and
`predicate` (followed by the deletion of that predicate), then the paging system's
`pushMappings`; the pending list is empty afterwards, the result is `true`, and a second
`pushMappings` makes no `invalidatePages` call at all. -/
theorem pushMappings_drains_invalidations (loader : DemandPageLoaderImpl)
    (stream stream2 : CUstream) :
    (loader.pushMappings stream).2.2.calls
        = loader.calls ++ [Call.allocateDeviceContext]
          ++ loader.m_pagesToInvalidate.flatMap (fun ir =>
              [Call.pagingInvalidatePages ir.startPage ir.endPage ir.predicate
                 loader.pooledContext stream,
               Call.deletePredicate ir.predicate])
          ++ [Call.pagingPushMappings
                { loader.pooledContext with requestIfResident := loader.m_options.evictionActive }
                stream]
      ∧ (loader.pushMappings stream).2.2.m_pagesToInvalidate = []
      ∧ (loader.pushMappings stream).1 = true
      ∧ ((loader.pushMappings stream).2.2.pushMappings stream2).2.2.calls
        = (loader.pushMappings stream).2.2.calls
          ++ [Call.allocateDeviceContext,
              Call.pagingPushMappings
                { loader.pooledContext with requestIfResident := loader.m_options.evictionActive }
                stream2] := by
  simp [DemandPageLoaderImpl.pushMappings, DemandPageLoaderImpl.invalidatePages,
    DemandPageLoaderImpl.invalidateEach_eq, DemandPageLoaderImpl.invalidateEach]

/-- C10 as stated fails where the arena count does not fit in 32 bits. `sampleLoader` has
2 MiB arenas; for `maxMem = 2^53` the new arena count is `2^32`, which the cast to
`unsigned int` turns into 0, so the queued predicate returns true for the entry 0 of tile
page 5000, whose arena id 0 is below the new arena count. -/
theorem setMaxTextureMemory_predicate_counterexample :
    0 < sampleLoader.tilePoolArenaSize
      ∧ 9007199254740992 / sampleLoader.tilePoolArenaSize = 4294967296
      ∧ (sampleLoader.tileBlockDesc 0).arenaId = 0
      ∧ (sampleLoader.setMaxTextureMemory 9007199254740992).m_pagesToInvalidate.map
          (fun ir => ir.predicate 5000 0 0) = [true]
      ∧ ¬ (sampleLoader.tileBlockDesc 0).arenaId
          ≥ 9007199254740992 / sampleLoader.tilePoolArenaSize := by
  decide

/-- C10, amended. For every `maxMem` and positive tile-pool arena size whose new arena
count `floor( maxMem / arenaSize )` is below `2^32`, so that its cast to `unsigned int`
keeps its value, `setMaxTextureMemory( maxMem )` appends one range to the pending list, and
the predicate of that range returns true for a page table entry if and only if the
`arenaId` of its `TileBlockDesc` is at least `floor( maxMem / arenaSize )`, independently of
the page id and the stream. -/
theorem setMaxTextureMemory_predicate (loader : DemandPageLoaderImpl) (maxMem : Nat)
    (_harena : 0 < loader.tilePoolArenaSize)
    (hfit : maxMem / loader.tilePoolArenaSize < 2 ^ 32) :
    ∃ ir, (loader.setMaxTextureMemory maxMem).m_pagesToInvalidate
          = loader.m_pagesToInvalidate ++ [ir]
      ∧ ∀ (pageId pageVal : Nat) (stream : CUstream),
          (ir.predicate pageId pageVal stream = true
            ↔ (loader.tileBlockDesc pageVal).arenaId ≥ maxMem / loader.tilePoolArenaSize) := by
  refine ⟨_, rfl, ?_⟩
  intro pageId pageVal stream
  have hmod : maxMem / loader.tilePoolArenaSize % 2 ^ 32 = maxMem / loader.tilePoolArenaSize :=
    Nat.mod_eq_of_lt hfit
  simp only [hmod]
  simp [ResizeTilePoolPredicate]

/-- Witness for the amended C10: `sampleLoader` with a budget of 64 MiB, that is 32
arenas. -/
theorem setMaxTextureMemory_predicate_witness :
    ∃ ir, (sampleLoader.setMaxTextureMemory 67108864).m_pagesToInvalidate
          = sampleLoader.m_pagesToInvalidate ++ [ir]
      ∧ ∀ (pageId pageVal : Nat) (stream : CUstream),
          (ir.predicate pageId pageVal stream = true
            ↔ (sampleLoader.tileBlockDesc pageVal).arenaId
                ≥ 67108864 / sampleLoader.tilePoolArenaSize) :=
  setMaxTextureMemory_predicate sampleLoader 67108864 (by decide) (by decide)

/-! ## Single-precision evaluations and the clamp -/

/-- An integer is its own nearest integer. -/
theorem roundTiesEven_intCast (z : Int) : roundTiesEven (z : ℚ) = z := by
  unfold roundTiesEven
  simp

/-- The exponent of `1 - 2^-30` is `-1`. -/
theorem f32Exponent_below_one : f32Exponent (1 - 1 / 2 ^ 30) = -1 := by
  have habs : |(1 - 1 / 2 ^ 30 : ℚ)| = 1 - 1 / 2 ^ 30 := abs_of_pos (by norm_num)
  have hceil : ⌈(1 - 1 / 2 ^ 30 : ℚ)⁻¹⌉₊ = 2 := by
    rw [Nat.ceil_eq_iff (by norm_num)]
    norm_num
  have hclog : Nat.clog 2 2 = 1 := by simp [Nat.clog]
  unfold f32Exponent
  rw [habs, Int.log_of_right_le_one _ (by norm_num), hceil, hclog]
  norm_num

/-- The exact value `1 - 2^-30` rounds to the `float` 1. -/
theorem roundF32_below_one : roundF32 (1 - 1 / 2 ^ 30) = 1 := by
  have hq : (1 - 1 / 2 ^ 30 : ℚ) / 2 ^ ((-1 : Int) - 23) = 16777216 - 1 / 64 := by
    norm_num
  have hfloor : ⌊(16777216 - 1 / 64 : ℚ)⌋ = 16777215 := by
    rw [Int.floor_eq_iff]
    norm_num
  have hround : roundTiesEven (16777216 - 1 / 64) = 16777216 := by
    unfold roundTiesEven
    simp only [hfloor]
    norm_num
  unfold roundF32
  rw [f32Exponent_below_one, hq, hround]
  norm_num

/-- The number `-2^-30` is a finite `float`. -/
theorem isFloat32_neg_two_pow : IsFloat32 (-(1 / 2 ^ 30)) := by
  have habs : |(-(1 / 2 ^ 30) : ℚ)| = (2 : ℚ) ^ (-30 : Int) := by
    rw [abs_neg, abs_of_pos (by norm_num)]
    norm_num
  have hexp : f32Exponent (-(1 / 2 ^ 30)) = -30 := by
    unfold f32Exponent
    rw [habs]
    have hlog : Int.log 2 ((2 : ℚ) ^ (-30 : Int)) = -30 := Int.log_zpow (by norm_num) _
    rw [hlog]
    norm_num
  have hq : (-(1 / 2 ^ 30) : ℚ) / 2 ^ ((-30 : Int) - 23) = ((-8388608 : Int) : ℚ) := by
    norm_num
  refine ⟨?_, ?_⟩
  · unfold roundF32
    rw [hexp, hq, roundTiesEven_intCast]
    norm_num
  · rw [habs]
    norm_num

/-- The floor of `-2^-30` is `-1`. -/
theorem floorf_neg_two_pow : floorf (-(1 / 2 ^ 30)) = -1 := by
  unfold floorf
  have h : ⌊(-(1 / 2 ^ 30) : ℚ)⌋ = -1 := by
    rw [Int.floor_eq_iff]
    norm_num
  rw [h]
  norm_num

/-- The `float` difference `x - floorf( x )` is 1 for `x = -2^-30`. -/
theorem fsub_floorf_neg_two_pow : fsub (-(1 / 2 ^ 30)) (floorf (-(1 / 2 ^ 30))) = 1 := by
  have h : (-(1 / 2 ^ 30) - (-1) : ℚ) = 1 - 1 / 2 ^ 30 := by norm_num
  rw [floorf_neg_two_pow]
  unfold fsub
  rw [h, roundF32_below_one]

/-- A clamp between ordered bounds stays within them. -/
theorem clampf_bounds (f a b : ℚ) (hab : a ≤ b) : a ≤ clampf f a b ∧ clampf f a b ≤ b := by
  unfold clampf maxf minf
  split_ifs <;> constructor <;> linarith

/-- The constant `firstFloatLessThanOne` is `1 - 2^-24`. -/
theorem firstFloatLessThanOne_eq : firstFloatLessThanOne = 1 - 1 / 2 ^ 24 := by
  unfold firstFloatLessThanOne
  norm_num

/-- The explicit value of a clamp between ordered bounds. -/
theorem clampf_eq (f a b : ℚ) (hab : a ≤ b) :
    clampf f a b = if f < a then a else if b < f then b else f := by
  unfold clampf maxf minf
  split_ifs <;> linarith

/-- The rounding of a nonnegative number is nonnegative. -/
theorem roundTiesEven_nonneg (q : ℚ) (hq : 0 ≤ q) : 0 ≤ roundTiesEven q := by
  have hf : 0 ≤ ⌊q⌋ := Int.floor_nonneg.mpr hq
  unfold roundTiesEven
  simp only
  split_ifs <;> omega

/-- The rounding of a number that is at most an integer is at most that integer. -/
theorem roundTiesEven_le (q : ℚ) (n : Int) (hq : q ≤ n) : roundTiesEven q ≤ n := by
  have hf : ⌊q⌋ ≤ n := Int.cast_le.mp (le_trans (Int.floor_le q) hq)
  unfold roundTiesEven
  simp only
  by_cases hd : q - ⌊q⌋ < 1 / 2
  · rw [if_pos hd]; exact hf
  · rw [if_neg hd]
    have hne : ⌊q⌋ ≠ n := by
      intro h
      apply hd
      rw [h]
      linarith
    have : ⌊q⌋ + 1 ≤ n := by omega
    split_ifs <;> omega

/-- Rounding to the nearest integer moves a number by at most one half. -/
theorem roundTiesEven_abs_sub (q : ℚ) : |(roundTiesEven q : ℚ) - q| ≤ 1 / 2 := by
  have h0 : (0 : ℚ) ≤ q - ⌊q⌋ := sub_nonneg.mpr (Int.floor_le q)
  have h1 : q - ⌊q⌋ < 1 := by
    have := Int.lt_floor_add_one q
    linarith
  unfold roundTiesEven
  simp only
  rw [abs_le]
  split_ifs with ha hb hc
  · constructor <;> linarith
  · push_cast
    constructor <;> linarith
  · have hd : q - ⌊q⌋ = 1 / 2 := le_antisymm (not_lt.mp hb) (not_lt.mp ha)
    constructor <;> linarith
  · have hd : q - ⌊q⌋ = 1 / 2 := le_antisymm (not_lt.mp hb) (not_lt.mp ha)
    push_cast
    constructor <;> linarith

/-- The single-precision exponent of a number between 0 and 1 is negative. -/
theorem f32Exponent_lt_one (q : ℚ) (h0 : 0 < q) (h1 : q < 1) : f32Exponent q ≤ -1 := by
  have hlog : Int.log 2 |q| < 0 := by
    rw [abs_of_pos h0]
    exact (Int.lt_zpow_iff_log_lt (b := 2) (by norm_num) h0 (x := 0)).mp (by simpa using h1)
  unfold f32Exponent
  have : max (Int.log 2 |q|) (-126) ≤ -1 := max_le (by omega) (by norm_num)
  exact this

/-- Rounding to single precision keeps a nonnegative number nonnegative. -/
theorem roundF32_nonneg (q : ℚ) (hq : 0 ≤ q) : 0 ≤ roundF32 q := by
  unfold roundF32
  have hp : (0 : ℚ) < 2 ^ (f32Exponent q - 23) := zpow_pos (by norm_num) _
  have h := roundTiesEven_nonneg (q / 2 ^ (f32Exponent q - 23)) (div_nonneg hq hp.le)
  exact mul_nonneg (Int.cast_nonneg.mpr h) hp.le

/-- Rounding to single precision takes a number between 0 and 1 to at most 1. -/
theorem roundF32_le_one (q : ℚ) (h0 : 0 ≤ q) (h1 : q < 1) : roundF32 q ≤ 1 := by
  rcases eq_or_lt_of_le h0 with hz | hpos
  · subst hz
    unfold roundF32
    simp [roundTiesEven]
  · have he := f32Exponent_lt_one q hpos h1
    obtain ⟨m, hm⟩ : ∃ m : Nat, f32Exponent q - 23 = -(m : Int) :=
      ⟨(-(f32Exponent q - 23)).toNat, by omega⟩
    unfold roundF32
    rw [hm]
    have hp : (0 : ℚ) < 2 ^ (-(m : Int)) := zpow_pos (by norm_num) _
    have hinv : (2 : ℚ) ^ (-(m : Int)) * 2 ^ m = 1 := by
      rw [zpow_neg, zpow_natCast]
      field_simp
    have hle : q / 2 ^ (-(m : Int)) ≤ ((2 ^ m : Int) : ℚ) := by
      rw [div_le_iff₀ hp]
      push_cast
      rw [mul_comm, hinv]
      exact h1.le
    have hc : ((roundTiesEven (q / 2 ^ (-(m : Int))) : Int) : ℚ) ≤ ((2 ^ m : Int) : ℚ) :=
      Int.cast_le.mpr (roundTiesEven_le _ _ hle)
    calc (roundTiesEven (q / 2 ^ (-(m : Int))) : ℚ) * 2 ^ (-(m : Int))
        ≤ ((2 ^ m : Int) : ℚ) * 2 ^ (-(m : Int)) := mul_le_mul_of_nonneg_right hc hp.le
      _ = 1 := by push_cast; rw [mul_comm, hinv]

/-- Rounding to single precision moves a number between 0 and 1 by at most `2^-25`. -/
theorem roundF32_abs_sub (q : ℚ) (h0 : 0 ≤ q) (h1 : q < 1) :
    |roundF32 q - q| ≤ 1 / 2 ^ 25 := by
  rcases eq_or_lt_of_le h0 with hz | hpos
  · subst hz
    unfold roundF32
    simp [roundTiesEven]
  · have he := f32Exponent_lt_one q hpos h1
    have hp : (0 : ℚ) < 2 ^ (f32Exponent q - 23) := zpow_pos (by norm_num) _
    have hk : (2 : ℚ) ^ (f32Exponent q - 23) ≤ 2 ^ (-24 : Int) :=
      zpow_le_zpow_right₀ (by norm_num) (by omega)
    have hq : roundF32 q - q
        = ((roundTiesEven (q / 2 ^ (f32Exponent q - 23)) : ℚ) - q / 2 ^ (f32Exponent q - 23))
            * 2 ^ (f32Exponent q - 23) := by
      unfold roundF32
      field_simp
    rw [hq, abs_mul, abs_of_pos hp]
    calc |(roundTiesEven (q / 2 ^ (f32Exponent q - 23)) : ℚ) - q / 2 ^ (f32Exponent q - 23)|
            * 2 ^ (f32Exponent q - 23)
        ≤ 1 / 2 * 2 ^ (-24 : Int) :=
          mul_le_mul (roundTiesEven_abs_sub _) hk hp.le (by norm_num)
      _ = 1 / 2 ^ 25 := by norm_num [zpow_neg]

/-! ## The item pool: size and live items -/

/-- Every run from a state whose size is the number of live items ends in such a state,
and the size moves by the number of allocations minus the number of frees. -/
theorem ItemPool.run_size :
    ∀ (ops : List ItemPoolOp) (pool : ItemPool) (live : List Nat) (pool1 : ItemPool)
      (live1 : List Nat), pool.size = live.length →
      ItemPool.run ops (pool, live) = some (pool1, live1) →
      pool1.size = live1.length
        ∧ pool1.size + ItemPoolOp.numFrees ops = pool.size + ItemPoolOp.numAllocates ops := by
  intro ops
  induction ops with
  | nil =>
    intro pool live pool1 live1 hinv hrun
    simp only [ItemPool.run, Option.some.injEq, Prod.mk.injEq] at hrun
    obtain ⟨h1, h2⟩ := hrun
    subst h1 h2
    exact ⟨hinv, rfl⟩
  | cons op ops ih =>
    intro pool live pool1 live1 hinv hrun
    cases op with
    | allocate =>
      simp only [ItemPool.run] at hrun
      have hsize : (pool.allocate).2.size = pool.size + 1 := by
        unfold ItemPool.allocate ItemPool.size
        split <;> rfl
      have hinv1 : (pool.allocate).2.size = ((pool.allocate).1 :: live).length := by
        rw [hsize, List.length_cons, hinv]
      obtain ⟨h1, h2⟩ := ih _ _ pool1 live1 hinv1 hrun
      refine ⟨h1, ?_⟩
      simp only [ItemPoolOp.numAllocates, ItemPoolOp.numFrees]
      omega
    | free item =>
      simp only [ItemPool.run] at hrun
      split at hrun
      · rename_i hmem
        have hpos : 0 < live.length := List.length_pos_of_mem hmem
        have hsize : (pool.free item).size = pool.size - 1 := rfl
        have hinv1 : (pool.free item).size = (live.erase item).length := by
          rw [hsize, List.length_erase_of_mem hmem, hinv]
        obtain ⟨h1, h2⟩ := ih _ _ pool1 live1 hinv1 hrun
        refine ⟨h1, ?_⟩
        simp only [ItemPoolOp.numAllocates, ItemPoolOp.numFrees]
        omega
      · cases hrun

/-! ## The claims of the specification, C11 to C20 -/

/-- C11 as stated fails. In `budgetLoader` (budget 1 GiB) `setMaxTextureMemory` with 64 MiB
lowers the budget. When the device memory manager is asked to shrink, which is the last
call of the log of the first part, no range has been queued and no `invalidatePages` call
has been made; the range is queued by the second part, and it reaches the paging system in
the next `pushMappings`, after the shrink. -/
theorem setMaxTextureMemory_order_counterexample :
    67108864 < budgetLoader.m_options.maxTexMemPerDevice
      ∧ (budgetLoader.setMaxTextureMemoryResized 67108864).calls
          = [Call.setMaxTextureTileMemory 67108864]
      ∧ (budgetLoader.setMaxTextureMemoryResized 67108864).m_pagesToInvalidate = []
      ∧ budgetLoader.setMaxTextureMemory 67108864
          = (budgetLoader.setMaxTextureMemoryResized 67108864).setMaxTextureMemoryScheduled
              67108864
      ∧ (budgetLoader.setMaxTextureMemory 67108864).m_pagesToInvalidate.length = 1
      ∧ ((budgetLoader.setMaxTextureMemory 67108864).pushMappings 7).2.2.calls
          = [Call.setMaxTextureTileMemory 67108864,
             Call.allocateDeviceContext,
             Call.pagingInvalidatePages 1024 1048576
               (ResizeTilePoolPredicate budgetLoader.tileBlockDesc 32) ⟨0, false⟩ 7,
             Call.deletePredicate (ResizeTilePoolPredicate budgetLoader.tileBlockDesc 32),
             Call.pagingPushMappings ⟨0, true⟩ 7] :=
  ⟨by decide, rfl, rfl, rfl, rfl, rfl⟩

/-- C11, amended. In every execution of `setMaxTextureMemory` the device memory manager is
asked to shrink (`setMaxTextureTileMemory`) first, with the pending list as it was; the
invalidation range with the `arenaId >= newMax` predicate is queued after that call, in the
same execution, behind the ranges already pending, and the next `pushMappings` hands it to
the paging system's `invalidatePages` before its own push. -/
theorem setMaxTextureMemory_order (loader : DemandPageLoaderImpl) (maxMem : Nat)
    (stream : CUstream) :
    loader.setMaxTextureMemory maxMem
        = (loader.setMaxTextureMemoryResized maxMem).setMaxTextureMemoryScheduled maxMem
      ∧ (loader.setMaxTextureMemoryResized maxMem).calls
          = loader.calls ++ [Call.setMaxTextureTileMemory maxMem]
      ∧ (loader.setMaxTextureMemoryResized maxMem).m_pagesToInvalidate
          = loader.m_pagesToInvalidate
      ∧ (loader.setMaxTextureMemory maxMem).m_pagesToInvalidate
          = loader.m_pagesToInvalidate
            ++ [InvalidationRange.mk loader.m_options.numPageTableEntries
                  loader.m_options.numPages
                  (ResizeTilePoolPredicate loader.tileBlockDesc
                    (maxMem / loader.tilePoolArenaSize % 2 ^ 32))]
      ∧ ((loader.setMaxTextureMemory maxMem).pushMappings stream).2.2.calls
          = loader.calls
            ++ [Call.setMaxTextureTileMemory maxMem, Call.allocateDeviceContext]
            ++ loader.m_pagesToInvalidate.flatMap (fun ir =>
                [Call.pagingInvalidatePages ir.startPage ir.endPage ir.predicate
                   loader.pooledContext stream,
                 Call.deletePredicate ir.predicate])
            ++ [Call.pagingInvalidatePages loader.m_options.numPageTableEntries
                  loader.m_options.numPages
                  (ResizeTilePoolPredicate loader.tileBlockDesc
                    (maxMem / loader.tilePoolArenaSize % 2 ^ 32))
                  loader.pooledContext stream,
                Call.deletePredicate
                  (ResizeTilePoolPredicate loader.tileBlockDesc
                    (maxMem / loader.tilePoolArenaSize % 2 ^ 32)),
                Call.pagingPushMappings
                  { loader.pooledContext with
                    requestIfResident := loader.m_options.evictionActive }
                  stream] := by
  refine ⟨rfl, rfl, rfl, rfl, ?_⟩
  simp [DemandPageLoaderImpl.pushMappings, DemandPageLoaderImpl.invalidatePages,
    DemandPageLoaderImpl.invalidateEach_eq, DemandPageLoaderImpl.setMaxTextureMemory]

/-- C12. `setPageTableEntry` chooses the LRU value from the evictable flag: for every
`pageId`, `pageTableEntry` and flag, `setPageTableEntry( pageId, evictable, pageTableEntry )`
makes exactly one call, `addMapping( pageId, lruVal, pageTableEntry )` on the paging system,
with `lruVal = 0` when `evictable` is true and `lruVal = NON_EVICTABLE_LRU_VAL` when it is
false, and leaves the rest of the loader as it was. -/
theorem setPageTableEntry_lru (NON_EVICTABLE_LRU_VAL pageId pageTableEntry : Nat)
    (evictable : Bool) (loader : DemandPageLoaderImpl) :
    (loader.setPageTableEntry NON_EVICTABLE_LRU_VAL pageId evictable pageTableEntry).calls
        = loader.calls
          ++ [Call.pagingAddMapping pageId
                (match evictable with
                 | true => 0
                 | false => NON_EVICTABLE_LRU_VAL)
                pageTableEntry]
      ∧ (loader.setPageTableEntry NON_EVICTABLE_LRU_VAL pageId evictable
            pageTableEntry).m_pagesToInvalidate = loader.m_pagesToInvalidate
      ∧ (loader.setPageTableEntry NON_EVICTABLE_LRU_VAL pageId evictable
            pageTableEntry).m_options = loader.m_options := by
  cases evictable <;> exact ⟨rfl, rfl, rfl⟩

/-- C13. Sparse textures are only ever downgraded. When the driver queries succeed, with
`sparse` the sparse-CUDA-array attribute and `tcc` the TCC-driver attribute of the current
device, `supportsSparseTextures` returns true if and only if `sparse` is non-zero and `tcc`
is zero, and construction succeeds with `options.useSparseTextures` equal to the supplied
flag AND `supportsSparseTextures( device )`: forced to false on an unsupported device,
never switched on, every other option as supplied. -/
theorem construct_downgrades_sparse (driver : CudaDriver) (device : CUdevice)
    (sparse tcc : Int) (tilePoolArenaSize : Nat) (pooledContext : DeviceContext)
    (tileBlockDesc : Nat → TileBlockDesc) (options : Options)
    (hdevice : driver.cuCtxGetDevice = Except.ok device)
    (hsparse : driver.cuDeviceGetAttribute
      CUdevice_attribute.CU_DEVICE_ATTRIBUTE_SPARSE_CUDA_ARRAY_SUPPORTED device
        = Except.ok sparse)
    (htcc : driver.cuDeviceGetAttribute CUdevice_attribute.CU_DEVICE_ATTRIBUTE_TCC_DRIVER
      device = Except.ok tcc) :
    DemandPageLoaderImpl.supportsSparseTextures driver device
        = Except.ok (decide (sparse ≠ 0 ∧ tcc = 0))
      ∧ ∃ loader,
          DemandPageLoaderImpl.construct driver tilePoolArenaSize pooledContext tileBlockDesc
              options = Except.ok loader
            ∧ loader.m_options.useSparseTextures
                = (options.useSparseTextures && decide (sparse ≠ 0 ∧ tcc = 0))
            ∧ loader.m_options = { options with
                useSparseTextures := loader.m_options.useSparseTextures } := by
  have hsupport : DemandPageLoaderImpl.supportsSparseTextures driver device
      = Except.ok (decide (sparse ≠ 0 ∧ tcc = 0)) := by
    simp only [DemandPageLoaderImpl.supportsSparseTextures, hsparse, htcc]
    by_cases h1 : sparse = 0 <;> by_cases h2 : tcc = 0 <;> simp [h1, h2]
  refine ⟨hsupport, ?_⟩
  simp only [DemandPageLoaderImpl.construct, hdevice, hsupport]
  refine ⟨_, rfl, ?_, ?_⟩
  · by_cases h : sparse ≠ 0 ∧ tcc = 0 <;> simp [h]
  · by_cases h : sparse ≠ 0 ∧ tcc = 0 <;> simp [h]

/-- Witness for C13: `tccDriver` supports sparse arrays but runs the TCC driver, so the
flag of `sampleLoader`'s options is switched off and construction succeeds. -/
theorem construct_downgrades_sparse_witness :
    DemandPageLoaderImpl.supportsSparseTextures tccDriver 0
        = Except.ok (decide ((1 : Int) ≠ 0 ∧ (1 : Int) = 0))
      ∧ ∃ loader,
          DemandPageLoaderImpl.construct tccDriver 2097152 ⟨0, false⟩
              sampleLoader.tileBlockDesc sampleLoader.m_options = Except.ok loader
            ∧ loader.m_options.useSparseTextures
                = (sampleLoader.m_options.useSparseTextures
                    && decide ((1 : Int) ≠ 0 ∧ (1 : Int) = 0))
            ∧ loader.m_options = { sampleLoader.m_options with
                useSparseTextures := loader.m_options.useSparseTextures } :=
  construct_downgrades_sparse tccDriver 0 1 1 2097152 ⟨0, false⟩ sampleLoader.tileBlockDesc
    sampleLoader.m_options rfl rfl rfl

/-- C14. `replayRequests` flushes before it accepts requests: for every call
`replayRequests( stream, id, pageIds, numPageIds )` the calls made are exactly
`flushMappings` on the paging system followed by `addRequests` on the request processor,
and `addRequests` receives the stream, id, page-id array and count that were passed in. -/
theorem replayRequests_flushes_first (loader : DemandPageLoaderImpl) (stream : CUstream)
    (id numPageIds : Nat) (pageIds : List Nat) :
    (loader.replayRequests stream id pageIds numPageIds).calls
        = loader.calls
          ++ [Call.pagingFlushMappings, Call.addRequests stream id pageIds numPageIds]
      ∧ (loader.replayRequests stream id pageIds numPageIds).m_pagesToInvalidate
          = loader.m_pagesToInvalidate
      ∧ (loader.replayRequests stream id pageIds numPageIds).m_options = loader.m_options := by
  simp [DemandPageLoaderImpl.replayRequests]

/-- C15. The 2022 header breaks the bound in wrap mode. The finite `float` `x = -2^-30` has
`floorf( x ) = -1`, the exact difference `1 - 2^-30` rounds to 1, and `wrapTexCoord`
returns that difference unclamped: the result is 1, above `firstFloatLessThanOne`, where
the 2023 header returns `firstFloatLessThanOne`. -/
theorem hw_wrapTexCoord_reaches_one :
    IsFloat32 (-(1 / 2 ^ 30))
      ∧ HW.wrapTexCoord (-(1 / 2 ^ 30)) CUaddress_mode.CU_TR_ADDRESS_MODE_WRAP = 1
      ∧ ¬ HW.wrapTexCoord (-(1 / 2 ^ 30)) CUaddress_mode.CU_TR_ADDRESS_MODE_WRAP
          ≤ firstFloatLessThanOne
      ∧ RM.wrapTexCoord (-(1 / 2 ^ 30)) CUaddress_mode.CU_TR_ADDRESS_MODE_WRAP
          = firstFloatLessThanOne := by
  have hhw : HW.wrapTexCoord (-(1 / 2 ^ 30)) CUaddress_mode.CU_TR_ADDRESS_MODE_WRAP = 1 := by
    simp only [HW.wrapTexCoord, if_true]
    exact fsub_floorf_neg_two_pow
  refine ⟨isFloat32_neg_two_pow, hhw, ?_, ?_⟩
  · rw [hhw, firstFloatLessThanOne_eq]
    norm_num
  · simp only [RM.wrapTexCoord, if_true]
    rw [fsub_floorf_neg_two_pow, firstFloatLessThanOne_eq]
    unfold clampf maxf minf
    norm_num

/-- C16. `wrapTexCoord` of the 2023 header always stays below the texture border: for
every `float` `x` and every address mode the result `r` satisfies
`0 ≤ r ≤ 0.999999940395355224609375`. In wrap mode `r` is the clamp of the `float`
difference `v = x - floorf( x )`, the fractional part of `x` rounded to single precision:
`v` lies between 0 and 1 and within `2^-25` of the fractional part, and `r` is `v`, or the
upper bound when `v` exceeds it. In every other mode `r` is the clamp of `x`: 0 when
`x < 0`, the upper bound when `x` exceeds it, and `x` otherwise. -/
theorem rm_wrapTexCoord_bounds (x : ℚ) (addressMode : CUaddress_mode) :
    0 ≤ RM.wrapTexCoord x addressMode
      ∧ RM.wrapTexCoord x addressMode ≤ 0.999999940395355224609375
      ∧ 0 ≤ roundF32 (x - ⌊x⌋)
      ∧ roundF32 (x - ⌊x⌋) ≤ 1
      ∧ |roundF32 (x - ⌊x⌋) - (x - ⌊x⌋)| ≤ 1 / 2 ^ 25
      ∧ RM.wrapTexCoord x addressMode
          = (match addressMode with
             | CUaddress_mode.CU_TR_ADDRESS_MODE_WRAP =>
               if 0.999999940395355224609375 < roundF32 (x - ⌊x⌋)
               then 0.999999940395355224609375 else roundF32 (x - ⌊x⌋)
             | _ =>
               if x < 0 then 0
               else if 0.999999940395355224609375 < x then 0.999999940395355224609375
               else x) := by
  have hle : (0 : ℚ) ≤ firstFloatLessThanOne := by
    rw [firstFloatLessThanOne_eq]
    norm_num
  have hconst : (0.999999940395355224609375 : ℚ) = firstFloatLessThanOne := rfl
  have hfrac0 : (0 : ℚ) ≤ x - ⌊x⌋ := sub_nonneg.mpr (Int.floor_le x)
  have hfrac1 : x - ⌊x⌋ < 1 := by
    have := Int.lt_floor_add_one x
    linarith
  have hv0 := roundF32_nonneg _ hfrac0
  rw [hconst]
  refine ⟨(clampf_bounds _ 0 _ hle).1, (clampf_bounds _ 0 _ hle).2, hv0,
    roundF32_le_one _ hfrac0 hfrac1, roundF32_abs_sub _ hfrac0 hfrac1, ?_⟩
  cases addressMode
  · simp only [RM.wrapTexCoord, if_true, fsub, floorf]
    rw [clampf_eq _ _ _ hle, if_neg (not_lt.mpr hv0)]
  all_goals
    simp only [RM.wrapTexCoord]
    rw [clampf_eq _ _ _ hle]
    rfl

/-- C17. `calculateLevelDim` is the halved dimension clamped to one: for every 32-bit
unsigned `textureDim` and every `mipLevel < 32`,
`calculateLevelDim( mipLevel, textureDim ) = max( floor( textureDim / 2^mipLevel ), 1 )`; the
result is at least 1, and it is 1 whenever `2^mipLevel > textureDim`. -/
theorem calculateLevelDim_max (textureDim mipLevel : Nat) (_ht : textureDim < 2 ^ 32)
    (_hm : mipLevel < 32) :
    calculateLevelDim mipLevel textureDim = max (textureDim / 2 ^ mipLevel) 1
      ∧ 1 ≤ calculateLevelDim mipLevel textureDim
      ∧ (textureDim < 2 ^ mipLevel → calculateLevelDim mipLevel textureDim = 1) := by
  have hdef : calculateLevelDim mipLevel textureDim = max (textureDim / 2 ^ mipLevel) 1 := by
    unfold calculateLevelDim uimax
    rw [Nat.shiftRight_eq_div_pow]
    split_ifs with h
    · exact (max_eq_left (by omega)).symm
    · exact (max_eq_right (by omega)).symm
  refine ⟨hdef, ?_, ?_⟩
  · rw [hdef]
    exact le_max_right _ _
  · intro hlt
    rw [hdef, Nat.div_eq_of_lt hlt]
    rfl

/-- Witness for C17: a 1920-texel dimension at mip level 11, where `2^11 > 1920`. -/
theorem calculateLevelDim_max_witness :
    calculateLevelDim 11 1920 = max (1920 / 2 ^ 11) 1
      ∧ 1 ≤ calculateLevelDim 11 1920
      ∧ (1920 < 2 ^ 11 → calculateLevelDim 11 1920 = 1) :=
  calculateLevelDim_max 1920 11 (by decide) (by decide)

/-- C18. `isMipTailIndex` characterises page 0: for every unsigned page index `p`,
`isMipTailIndex( p )` is true if and only if `p = 0`. -/
theorem isMipTailIndex_iff (p : Nat) : isMipTailIndex p = true ↔ p = 0 := by
  simp [isMipTailIndex]

/-- C19. `ItemPool` reuses freed items in LIFO order: for every pool state, if the item
returned by `allocate()` is freed and `allocate()` is called next, that call returns the
same item; more generally the item freed last is handed out first. -/
theorem itemPool_reuses_freed_item (pool : ItemPool) (item : Nat) :
    (((pool.allocate).2.free (pool.allocate).1).allocate).1 = (pool.allocate).1
      ∧ ((pool.free item).allocate).1 = item :=
  ⟨rfl, rfl⟩

/-- C20. `ItemPool` size counts live items only: a freshly constructed pool has
`size() = 0`, and after every sequence of `allocate()` calls and `free()` calls on currently
allocated items `size()` equals the number of items allocated and not yet freed, which is
the number of `allocate` calls minus the number of `free` calls. -/
theorem itemPool_size_counts_live (ops : List ItemPoolOp) (pool : ItemPool)
    (live : List Nat) (hrun : ItemPool.run ops (ItemPool.empty, []) = some (pool, live)) :
    ItemPool.empty.size = 0
      ∧ pool.size = live.length
      ∧ pool.size + ItemPoolOp.numFrees ops = ItemPoolOp.numAllocates ops := by
  obtain ⟨h1, h2⟩ := ItemPool.run_size ops ItemPool.empty [] pool live rfl hrun
  refine ⟨rfl, h1, ?_⟩
  have h0 : ItemPool.empty.size = 0 := rfl
  omega

/-- Witness for C20: two allocations, the first item freed, then a third allocation, which
reuses slot 0; the items 0 and 1 are live and the size is 2. -/
theorem itemPool_size_counts_live_witness :
    ItemPool.empty.size = 0
      ∧ (ItemPool.mk [] 2 2).size = [0, 1].length
      ∧ (ItemPool.mk [] 2 2).size
          + ItemPoolOp.numFrees
              [ItemPoolOp.allocate, ItemPoolOp.allocate, ItemPoolOp.free 0, ItemPoolOp.allocate]
        = ItemPoolOp.numAllocates
            [ItemPoolOp.allocate, ItemPoolOp.allocate, ItemPoolOp.free 0, ItemPoolOp.allocate] :=
  itemPool_size_counts_live
    [ItemPoolOp.allocate, ItemPoolOp.allocate, ItemPoolOp.free 0, ItemPoolOp.allocate]
    (ItemPool.mk [] 2 2) [0, 1] (by decide)

/-! ## The footprint tile coordinate without wrap-around -/

/-- An `unsigned int` sum read back as `int`, when the exact sum is in range. -/
theorem toInt32_uadd (a : Int) (b : Nat) (h0 : -2 ^ 31 ≤ a + b) (h1 : a + b < 2 ^ 31) :
    toInt32 ((uadd (toUInt32 a) b : Nat) : Int) = a + b := by
  unfold toInt32 uadd toUInt32
  omega

/-- An `unsigned int` difference read back as `int`, when the exact difference is in range. -/
theorem toInt32_usub (a : Int) (b : Nat) (h0 : -2 ^ 31 ≤ a - b) (h1 : a - b < 2 ^ 31) :
    toInt32 ((usub (toUInt32 a) b : Nat) : Int) = a - b := by
  unfold toInt32 usub toUInt32
  omega

/-- The `unsigned int` sum `x + dx` of two values below 8. -/
theorem uadd_toUInt32_small (x : Int) (dx : Nat) (hx0 : 0 ≤ x) (hx8 : x < 8) (hdx : dx < 8) :
    ((uadd (toUInt32 x) dx : Nat) : Int) = x + dx := by
  unfold uadd toUInt32
  omega

/-- In range, `wrapFootprintTileCoord` is the same sequence of steps on exact integers. -/
theorem HW.wrapFootprintTileCoord_value (x : Int) (dx tileX L : Nat) (hx0 : 0 ≤ x)
    (hx8 : x < 8) (hdx : dx < 8) (hL31 : L < 2 ^ 31) (ht : 8 * tileX + 8 ≤ 2 ^ 31) :
    HW.wrapFootprintTileCoord x dx tileX L
      = (let x1 := if x + dx ≥ 8 then x - 8 else x
         let x2 := if x1 > L then 0 else x1
         let x3 := x2 + 8 * tileX
         let x4 := if x3 < 0 then x3 + L else x3
         if x4 ≥ L then x4 - L else x4) := by
  obtain ⟨x1, hx1⟩ : ∃ x1 : Int, x1 = if x + dx ≥ 8 then x - 8 else x := ⟨_, rfl⟩
  obtain ⟨x2, hx2⟩ : ∃ x2 : Int, x2 = if x1 > L then 0 else x1 := ⟨_, rfl⟩
  obtain ⟨x3, hx3⟩ : ∃ x3 : Int, x3 = x2 + 8 * tileX := ⟨_, rfl⟩
  obtain ⟨x4, hx4⟩ : ∃ x4 : Int, x4 = if x3 < 0 then x3 + L else x3 := ⟨_, rfl⟩
  have b1 : -8 ≤ x1 ∧ x1 < 8 := by
    rw [hx1]; split_ifs <;> omega
  have b2 : -8 ≤ x2 ∧ x2 < 8 := by
    rw [hx2]; split_ifs <;> omega
  have b3 : -8 ≤ x3 ∧ x3 < 2 ^ 31 := by omega
  have b4 : -8 ≤ x4 ∧ x4 < 2 ^ 31 := by
    rw [hx4]; split_ifs <;> omega
  have f3 : -2 ^ 31 ≤ x2 + ((8 * tileX : Nat) : Int) ∧ x2 + ((8 * tileX : Nat) : Int) < 2 ^ 31 := by
    omega
  have e3 : x2 + ((8 * tileX : Nat) : Int) = x3 := by omega
  have f4 : x3 < 0 → -2 ^ 31 ≤ x3 + (L : Int) ∧ x3 + (L : Int) < 2 ^ 31 := by
    intro h; omega
  have f5 : x4 ≥ (L : Int) → -2 ^ 31 ≤ x4 - (L : Int) ∧ x4 - (L : Int) < 2 ^ 31 := by
    intro h; omega
  have c1 : ∀ u : Nat, (u : Int) = x + dx → (u ≥ 8 ↔ x + dx ≥ 8) := by
    intro u hu; omega
  have g1 : -2 ^ 31 ≤ (L : Int) ∧ (L : Int) < 2 ^ 31 := by omega
  have g2 : -2 ^ 31 ≤ x - 8 ∧ x - 8 < 2 ^ 31 := by omega
  have g3 : 8 * tileX < 2 ^ 32 := by omega
  have hL : toInt32 (L : Int) = L := toInt32_of_range g1.1 g1.2
  have hs : isub x 8 = x - 8 := toInt32_of_range g2.1 g2.2
  have hm : umul 8 tileX = 8 * tileX := Nat.mod_eq_of_lt g3
  have r1 : (if uadd (toUInt32 x) dx ≥ 8 then isub x 8 else x) = x1 := by
    rw [hs, hx1]
    have hc := c1 _ (uadd_toUInt32_small x dx hx0 hx8 hdx)
    by_cases h : x + (dx : Int) ≥ 8
    · rw [if_pos (hc.mpr h), if_pos h]
    · rw [if_neg (fun h2 => h (hc.mp h2)), if_neg h]
  have r2 : (if x1 > toInt32 (L : Int) then 0 else x1) = x2 := by
    rw [hL, hx2]
  have r3 : toInt32 ((uadd (toUInt32 x2) (umul 8 tileX) : Nat) : Int) = x3 := by
    rw [hm, toInt32_uadd x2 _ f3.1 f3.2, e3]
  have r4 : (if x3 < 0 then toInt32 ((uadd (toUInt32 x3) L : Nat) : Int) else x3) = x4 := by
    rw [hx4]
    by_cases h : x3 < 0
    · rw [if_pos h, if_pos h]
      exact toInt32_uadd x3 L (f4 h).1 (f4 h).2
    · rw [if_neg h, if_neg h]
  have r5 : (if x4 ≥ toInt32 (L : Int) then toInt32 ((usub (toUInt32 x4) L : Nat) : Int) else x4)
      = if x4 ≥ L then x4 - L else x4 := by
    rw [hL]
    by_cases h : x4 ≥ (L : Int)
    · rw [if_pos h, if_pos h]
      exact toInt32_usub x4 L (f5 h).1 (f5 h).2
    · rw [if_neg h, if_neg h]
  simp only [HW.wrapFootprintTileCoord, r1, r2, r3, r4, r5]
  simp only [← hx1, ← hx2, ← hx3, ← hx4]

/-! ## The reverse round trip of the 8x8-block layout -/

/-- Arithmetic core of the reverse round trip: joining the coordinates split from an offset
gives the offset back. -/
theorem HW.join_offset (p W : Int) (hp0 : 0 ≤ p) (hW : 0 < W) :
    0 ≤ p / 64 % W * 8 + p % 64 % 8
      ∧ 0 ≤ p / 64 / W * 8 + p % 64 / 8
      ∧ p / 64 % W * 8 + p % 64 % 8 < 8 * W
      ∧ 64 * (W * ((p / 64 / W * 8 + p % 64 / 8) / 8))
          + 64 * ((p / 64 % W * 8 + p % 64 % 8) / 8)
          + 8 * ((p / 64 / W * 8 + p % 64 / 8) % 8)
          + (p / 64 % W * 8 + p % 64 % 8) % 8 = p := by
  have hB : 0 ≤ p / 64 := by omega
  have hxb0 : 0 ≤ p / 64 % W := Int.emod_nonneg _ (ne_of_gt hW)
  have hxb1 : p / 64 % W < W := Int.emod_lt_of_pos _ hW
  have hyb0 : 0 ≤ p / 64 / W := Int.ediv_nonneg hB (le_of_lt hW)
  have hsplit : W * (p / 64 / W) + p / 64 % W = p / 64 := Int.ediv_add_emod _ _
  generalize p / 64 % W = xb at *
  generalize p / 64 / W = yb at *
  have h1 : (yb * 8 + p % 64 / 8) / 8 = yb := by omega
  have h2 : (xb * 8 + p % 64 % 8) / 8 = xb := by omega
  have h3 : (yb * 8 + p % 64 / 8) % 8 = p % 64 / 8 := by omega
  have h4 : (xb * 8 + p % 64 % 8) % 8 = p % 64 % 8 := by omega
  rw [h1, h2, h3, h4]
  generalize W * yb = Wyb at *
  refine ⟨by omega, by omega, by omega, by omega⟩

/-- The reverse round trip when `levelWidthInTiles + 7` does not overflow. -/
theorem HW.reverse_normal (p w : Int) (hw : 1 ≤ w) (hw7 : w + 7 < 2 ^ 31) (hp0 : 0 ≤ p)
    (hp31 : p < 2 ^ 31) :
    HW.getPageOffsetFromTileCoords ((HW.getTileCoordsFromPageOffset p w).1 : Int)
        ((HW.getTileCoordsFromPageOffset p w).2 : Int) w = p
      ∧ ((HW.getTileCoordsFromPageOffset p w).1 : Int) < 8 * ((w + 7) / 8) := by
  have hW : 0 < (w + 7) / 8 := by omega
  obtain ⟨htx0, hty0, htxW, hjoin⟩ := HW.join_offset p ((w + 7) / 8) hp0 hW
  have hlt : 64 * ((w + 7) / 8 * ((p / 64 / ((w + 7) / 8) * 8 + p % 64 / 8) / 8))
          + 64 * ((p / 64 % ((w + 7) / 8) * 8 + p % 64 % 8) / 8)
          + 8 * ((p / 64 / ((w + 7) / 8) * 8 + p % 64 / 8) % 8)
          + (p / 64 % ((w + 7) / 8) * 8 + p % 64 % 8) % 8 < 2 ^ 31 := by
    rw [hjoin]; exact hp31
  rw [HW.getTileCoordsFromPageOffset_exact p w hw hw7 hp0 hp31]
  simp only []
  rw [Int.toNat_of_nonneg htx0, Int.toNat_of_nonneg hty0,
    HW.getPageOffsetFromTileCoords_exact _ _ w hw hw7 htx0 hty0 hlt]
  exact ⟨hjoin, htxW⟩

/-- When `levelWidthInTiles + 7` overflows, `levelWidthInBlocks` is a negative number of
large magnitude. -/
theorem HW.blocks_overflow (w : Int) (h1 : 2 ^ 31 ≤ w + 7) (h2 : w < 2 ^ 31) :
    ∃ N : Int, idiv (iadd w 7) 8 = -N ∧ 2 ^ 27 ≤ N ∧ N ≤ 2 ^ 28 := by
  have hv : iadd w 7 = -(2 ^ 32 - w - 7) := by
    unfold iadd toInt32
    omega
  have hm0 : (0 : Int) ≤ 2 ^ 32 - w - 7 := by omega
  have hN0 : (2 : Int) ^ 27 ≤ (2 ^ 32 - w - 7) / 8 := by omega
  have hN1 : (2 ^ 32 - w - 7) / 8 ≤ (2 : Int) ^ 28 := by omega
  have hr0 : -(2 : Int) ^ 31 ≤ -((2 ^ 32 - w - 7) / 8) := by omega
  have hr1 : -((2 ^ 32 - w - 7) / 8) < (2 : Int) ^ 31 := by omega
  refine ⟨(2 ^ 32 - w - 7) / 8, ?_, hN0, hN1⟩
  rw [hv]
  unfold idiv
  rw [Int.neg_tdiv, Int.tdiv_eq_ediv hm0 (by norm_num)]
  exact toInt32_of_range hr0 hr1

/-- The reverse round trip when `levelWidthInTiles + 7` wraps: `levelWidthInBlocks` is
negative and larger in magnitude than every block number, so `xblock` is the block number
and `yblock` is 0 in both directions. -/
theorem HW.reverse_overflow (p w : Int) (h1 : 2 ^ 31 ≤ w + 7) (h2 : w < 2 ^ 31) (hp0 : 0 ≤ p)
    (hp31 : p < 2 ^ 31) :
    HW.getPageOffsetFromTileCoords ((HW.getTileCoordsFromPageOffset p w).1 : Int)
        ((HW.getTileCoordsFromPageOffset p w).2 : Int) w = p
      ∧ ((HW.getTileCoordsFromPageOffset p w).1 : Int) < 8 * ((w + 7) / 8) := by
  obtain ⟨N, hN, hN0, hN1⟩ := HW.blocks_overflow w h1 h2
  -- exact facts about the block number and the offset within the block
  have hB0 : 0 ≤ p / 64 := by omega
  have hBN : p / 64 < N := by omega
  have hB31 : p / 64 < 2 ^ 31 := by omega
  have hr0 : 0 ≤ p % 64 := by omega
  have hr31 : p % 64 < 2 ^ 31 := by omega
  have htx0 : 0 ≤ p / 64 * 8 + p % 64 % 8 := by omega
  have htx31 : p / 64 * 8 + p % 64 % 8 < 2 ^ 31 := by omega
  have htx32 : p / 64 * 8 + p % 64 % 8 < 2 ^ 32 := by omega
  have hty0 : 0 ≤ p % 64 / 8 := by omega
  have hty31 : p % 64 / 8 < 2 ^ 31 := by omega
  have hty32 : p % 64 / 8 < 2 ^ 32 := by omega
  have hB8a : 0 ≤ p / 64 * 8 := by omega
  have hB8b : p / 64 * 8 < 2 ^ 31 := by omega
  have hq1 : (p / 64 * 8 + p % 64 % 8) / 8 = p / 64 := by omega
  have hq2 : (p / 64 * 8 + p % 64 % 8) % 8 = p % 64 % 8 := by omega
  have hq3 : p % 64 / 8 / 8 = 0 := by omega
  have hq4 : p % 64 / 8 % 8 = p % 64 / 8 := by omega
  have h64a : 0 ≤ 64 * (p / 64) := by omega
  have h64b : 64 * (p / 64) < 2 ^ 31 := by omega
  have h8a : 0 ≤ 8 * (p % 64 / 8) := by omega
  have h8b : 8 * (p % 64 / 8) < 2 ^ 31 := by omega
  have hs1a : 0 ≤ 64 * (p / 64) + 8 * (p % 64 / 8) := by omega
  have hs1b : 64 * (p / 64) + 8 * (p % 64 / 8) < 2 ^ 31 := by omega
  have hs2a : 0 ≤ 64 * (p / 64) + 8 * (p % 64 / 8) + p % 64 % 8 := by omega
  have hs2b : 64 * (p / 64) + 8 * (p % 64 / 8) + p % 64 % 8 < 2 ^ 31 := by omega
  have htotal : 64 * (p / 64) + 8 * (p % 64 / 8) + p % 64 % 8 = p := by omega
  have hbound : p / 64 * 8 + p % 64 % 8 < 8 * ((w + 7) / 8) := by omega
  have hzero : toInt32 0 = 0 := by decide
  -- the machine operations of `getTileCoordsFromPageOffset`
  have m1 : idiv p 64 = p / 64 := idiv_of_nonneg hp0 hp31 (by norm_num)
  have m2 : imod p 64 = p % 64 := imod_of_nonneg hp0 (by norm_num)
  have m3 : imod (p / 64) (-N) = p / 64 := by
    unfold imod
    rw [Int.tmod_neg]
    exact Int.tmod_eq_of_lt hB0 hBN
  have m4 : idiv (p / 64) (-N) = 0 := by
    unfold idiv
    rw [Int.tdiv_neg, Int.tdiv_eq_zero_of_lt hB0 hBN]
    exact hzero
  have m5 : imod (p % 64) 8 = p % 64 % 8 := imod_of_nonneg hr0 (by norm_num)
  have m6 : idiv (p % 64) 8 = p % 64 / 8 := idiv_of_nonneg hr0 hr31 (by norm_num)
  have m7 : imul (p / 64) 8 = p / 64 * 8 := imul_of_nonneg hB8a hB8b
  have m8 : imul 0 8 = 0 := hzero
  have m9 : iadd (p / 64 * 8) (p % 64 % 8) = p / 64 * 8 + p % 64 % 8 :=
    iadd_of_nonneg htx0 htx31
  have m10 : iadd 0 (p % 64 / 8) = p % 64 / 8 := by
    unfold iadd
    rw [Int.zero_add]
    exact toInt32_of_nonneg hty0 hty31
  have hcoords : HW.getTileCoordsFromPageOffset p w
      = ((p / 64 * 8 + p % 64 % 8).toNat, (p % 64 / 8).toNat) := by
    simp only [HW.getTileCoordsFromPageOffset, hN, m1, m2, m3, m4, m5, m6, m7, m8, m9, m10,
      toUInt32_of_nonneg htx0 htx32, toUInt32_of_nonneg hty0 hty32]
  -- the machine operations of `getPageOffsetFromTileCoords`
  have n1 : idiv (p % 64 / 8) 8 = 0 := by
    rw [idiv_of_nonneg hty0 hty31 (by norm_num), hq3]
  have n2 : imul (-N) 0 = 0 := by
    unfold imul
    rw [Int.mul_zero]
    exact hzero
  have n3 : imul 64 0 = 0 := hzero
  have n4 : idiv (p / 64 * 8 + p % 64 % 8) 8 = p / 64 := by
    rw [idiv_of_nonneg htx0 htx31 (by norm_num), hq1]
  have n5 : imul 64 (p / 64) = 64 * (p / 64) := imul_of_nonneg h64a h64b
  have n6 : iadd 0 (64 * (p / 64)) = 64 * (p / 64) := by
    unfold iadd
    rw [Int.zero_add]
    exact toInt32_of_nonneg h64a h64b
  have n7 : imod (p % 64 / 8) 8 = p % 64 / 8 := by
    rw [imod_of_nonneg hty0 (by norm_num), hq4]
  have n8 : imul 8 (p % 64 / 8) = 8 * (p % 64 / 8) := imul_of_nonneg h8a h8b
  have n9 : iadd (64 * (p / 64)) (8 * (p % 64 / 8)) = 64 * (p / 64) + 8 * (p % 64 / 8) :=
    iadd_of_nonneg hs1a hs1b
  have n10 : imod (p / 64 * 8 + p % 64 % 8) 8 = p % 64 % 8 := by
    rw [imod_of_nonneg htx0 (by norm_num), hq2]
  have n11 : iadd (64 * (p / 64) + 8 * (p % 64 / 8)) (p % 64 % 8)
      = 64 * (p / 64) + 8 * (p % 64 / 8) + p % 64 % 8 := iadd_of_nonneg hs2a hs2b
  rw [hcoords]
  simp only []
  rw [Int.toNat_of_nonneg htx0, Int.toNat_of_nonneg hty0]
  refine ⟨?_, hbound⟩
  simp only [HW.getPageOffsetFromTileCoords, hN, n1, n2, n3, n4, n5, n6, n7, n8, n9, n10, n11,
    htotal]

/-- The ceiling of an eighth of an integer. -/
theorem intCeil_div_eight (w : Int) : ⌈(w : ℚ) / 8⌉ = (w + 7) / 8 := by
  have h1 : 8 * ((w + 7) / 8) - 8 < w := by omega
  have h2 : w ≤ 8 * ((w + 7) / 8) := by omega
  have q1 : ((8 * ((w + 7) / 8) - 8 : Int) : ℚ) < (w : ℚ) := by exact_mod_cast h1
  have q2 : (w : ℚ) ≤ ((8 * ((w + 7) / 8) : Int) : ℚ) := by exact_mod_cast h2
  push_cast at q1 q2
  rw [Int.ceil_eq_iff]
  constructor <;> linarith

/-! ## The tiling adapter: copied rectangles and reads -/

/-- Byte `j` of row `i` of a copied rectangle is byte `start + i * stride + j` of the
source, when every copied row lies inside the source. -/
theorem copyRows_getElem? (source : List Nat) (stride rowSize : Nat) :
    ∀ (rows start i j : Nat), i < rows → j < rowSize →
      (∀ k, k < rows → start + k * stride + rowSize ≤ source.length) →
      (copyRows source stride rowSize start rows)[i * rowSize + j]?
        = source[start + i * stride + j]? := by
  intro rows
  induction rows with
  | zero =>
    intro start i j hi
    exact absurd hi (Nat.not_lt_zero i)
  | succ rows ih =>
    intro start i j hi hj hfit
    have hrow : ((source.drop start).take rowSize).length = rowSize := by
      have h0 := hfit 0 (Nat.succ_pos rows)
      rw [List.length_take, List.length_drop]
      omega
    simp only [copyRows]
    cases i with
    | zero =>
      have hlt : 0 * rowSize + j < ((source.drop start).take rowSize).length := by
        rw [hrow]; omega
      rw [List.getElem?_append_left hlt, List.getElem?_take, List.getElem?_drop]
      simp [hj]
    | succ i =>
      have hge : ((source.drop start).take rowSize).length ≤ (i + 1) * rowSize + j := by
        rw [hrow, Nat.add_mul]; omega
      have hidx : (i + 1) * rowSize + j - rowSize = i * rowSize + j := by
        rw [Nat.add_mul]; omega
      have hsrc : start + stride + i * stride + j = start + (i + 1) * stride + j := by
        rw [Nat.add_mul]; omega
      rw [List.getElem?_append_right hge, hrow, hidx,
        ih (start + stride) i j (by omega) hj
          (fun k hk => by
            have := hfit (k + 1) (by omega)
            rw [Nat.add_mul] at this
            omega),
        hsrc]

/-- The length of a copied rectangle whose rows lie inside the source. -/
theorem copyRows_length (source : List Nat) (stride rowSize : Nat) :
    ∀ (rows start : Nat),
      (∀ k, k < rows → start + k * stride + rowSize ≤ source.length) →
      (copyRows source stride rowSize start rows).length = rows * rowSize := by
  intro rows
  induction rows with
  | zero => intro start _; simp [copyRows]
  | succ rows ih =>
    intro start hfit
    have h0 := hfit 0 (Nat.succ_pos rows)
    simp only [copyRows, List.length_append, List.length_take, List.length_drop]
    rw [ih (start + stride) (fun k hk => by
      have := hfit (k + 1) (by omega)
      rw [Nat.add_mul] at this
      omega), Nat.add_mul]
    omega

/-- Over an untiled image, `readTile` on a level that the wrapped image delivers writes the
rectangle of the tile and counts one read; the wrapped image is asked for the level only
when the level is not yet kept. -/
theorem TiledImageSource.readTile_untiled (s : TiledImageSource) (mipLevel : Nat)
    (tile : Tile) (stream : CUstream) (level : List Nat)
    (huntiled : s.m_baseIsTiled = false)
    (hbase : s.m_baseImage.readMipLevel mipLevel (s.levelWidth mipLevel)
      (s.levelHeight mipLevel) stream = some level)
    (hcache : s.m_mipLevels mipLevel = none ∨ s.m_mipLevels mipLevel = some level) :
    (s.readTile mipLevel tile stream).1
        = some (copyRows level (s.levelWidth mipLevel * s.pixelSizeInBytes)
            (tile.width * s.pixelSizeInBytes)
            (((s.tileOrigin tile).2 * s.levelWidth mipLevel + (s.tileOrigin tile).1)
              * s.pixelSizeInBytes) tile.height)
      ∧ (s.readTile mipLevel tile stream).2.m_numTilesRead = s.m_numTilesRead + 1
      ∧ (s.readTile mipLevel tile stream).2.m_mipLevels mipLevel = some level
      ∧ (s.readTile mipLevel tile stream).2.m_baseIsTiled = false
      ∧ (s.readTile mipLevel tile stream).2.m_baseImage = s.m_baseImage
      ∧ (s.readTile mipLevel tile stream).2.m_tiledInfo = s.m_tiledInfo
      ∧ (s.readTile mipLevel tile stream).2.baseCalls
          = s.baseCalls ++
              (match s.m_mipLevels mipLevel with
               | some _ => []
               | none => [BaseImageCall.readMipLevel mipLevel (s.levelWidth mipLevel)
                            (s.levelHeight mipLevel) stream]) := by
  rcases hcache with hnone | hsome
  · simp only [TiledImageSource.levelWidth, TiledImageSource.levelHeight] at hbase
    simp [TiledImageSource.readTile, huntiled, hnone, hbase, TiledImageSource.pixelSizeInBytes,
      TiledImageSource.levelWidth, TiledImageSource.levelHeight]
  · simp [TiledImageSource.readTile, huntiled, hsome, TiledImageSource.pixelSizeInBytes,
      TiledImageSource.levelWidth]

/-- The bytes of a tile rectangle that lies inside a level: position in the destination
and in the level. -/
theorem copyRows_pixel (level : List Nat) (lw lh ps ox oy tw th x y c : Nat)
    (hlen : level.length = lw * lh * ps) (hx : ox + tw ≤ lw) (hy : oy + th ≤ lh)
    (hpx : x < tw) (hpy : y < th) (hc : c < ps) :
    (copyRows level (lw * ps) (tw * ps) ((oy * lw + ox) * ps) th)[(y * tw + x) * ps + c]?
        = level[((oy + y) * lw + (ox + x)) * ps + c]?
      ∧ ((oy + y) * lw + (ox + x)) * ps + c < level.length
      ∧ (copyRows level (lw * ps) (tw * ps) ((oy * lw + ox) * ps) th).length = th * (tw * ps) := by
  have hfit : ∀ k, k < th → (oy * lw + ox) * ps + k * (lw * ps) + tw * ps ≤ level.length := by
    intro k hk
    rw [hlen]
    calc (oy * lw + ox) * ps + k * (lw * ps) + tw * ps
        = ((oy + k) * lw + (ox + tw)) * ps := by ring
      _ ≤ ((oy + k) * lw + lw) * ps := Nat.mul_le_mul_right _ (by omega)
      _ = (oy + k + 1) * lw * ps := by ring
      _ ≤ lh * lw * ps := Nat.mul_le_mul_right _ (Nat.mul_le_mul_right _ (by omega))
      _ = lw * lh * ps := by ring
  have hj : x * ps + c < tw * ps := by
    calc x * ps + c < x * ps + ps := by omega
      _ = (x + 1) * ps := by ring
      _ ≤ tw * ps := Nat.mul_le_mul_right _ (by omega)
  have hdst : (y * tw + x) * ps + c = y * (tw * ps) + (x * ps + c) := by ring
  have hsrc : (oy * lw + ox) * ps + y * (lw * ps) + (x * ps + c)
      = ((oy + y) * lw + (ox + x)) * ps + c := by ring
  refine ⟨?_, ?_, copyRows_length level _ _ th _ hfit⟩
  · rw [hdst, copyRows_getElem? level _ _ th _ y _ hpy hj hfit, hsrc]
  · have h := hfit y hpy
    rw [← hsrc]
    omega

/-- Reads of tiles of a level that is already kept count one each and make no call on the
wrapped image. -/
theorem TiledImageSource.readTiles_kept (mipLevel : Nat) (level : List Nat) :
    ∀ (reads : List (Tile × CUstream)) (s : TiledImageSource),
      s.m_baseIsTiled = false → s.m_mipLevels mipLevel = some level →
      (TiledImageSource.readTiles mipLevel reads s).m_numTilesRead
          = s.m_numTilesRead + reads.length
        ∧ (TiledImageSource.readTiles mipLevel reads s).baseCalls = s.baseCalls
        ∧ (TiledImageSource.readTiles mipLevel reads s).m_baseIsTiled = false := by
  intro reads
  induction reads with
  | nil =>
    intro s huntiled _
    exact ⟨rfl, rfl, huntiled⟩
  | cons read rest ih =>
    intro s huntiled hkept
    obtain ⟨tile, stream⟩ := read
    have hstep : (s.readTile mipLevel tile stream).2.m_numTilesRead = s.m_numTilesRead + 1
        ∧ (s.readTile mipLevel tile stream).2.baseCalls = s.baseCalls
        ∧ (s.readTile mipLevel tile stream).2.m_baseIsTiled = false
        ∧ (s.readTile mipLevel tile stream).2.m_mipLevels mipLevel = some level := by
      simp [TiledImageSource.readTile, huntiled, hkept]
    obtain ⟨h1, h2, h3, h4⟩ := hstep
    obtain ⟨i1, i2, i3⟩ := ih _ h3 h4
    simp only [TiledImageSource.readTiles]
    refine ⟨?_, ?_, i3⟩
    · rw [i1, h1, List.length_cons]
      omega
    · rw [i2, h2]

/-! ## The claims of the specification, C21 to C28 -/

/-- C21. `TiledImageSource.readTile` over an untiled base image returns the crop of the full
level to the rectangle of the tile. The rectangle starts at the pixel
`(tile.x * tile.width, tile.y * tile.height)` when `x` and `y` of a tile count tiles, and at
the pixel `(tile.x, tile.y)` when they are a pixel position. Under either reading, for every
mip level that the base image delivers with `levelWidth * levelHeight * pixelSize` bytes,
every tile whose rectangle lies inside the level and every pixel `(x, y)` of the tile,
`readTile` succeeds and byte `c` of the pixel at row `y`, column `x` of the destination (rows
of `tile.width * pixelSize` bytes) is byte `c` of the pixel `(x, y)` of that rectangle in the
base image's `readMipLevel` result. For a tile with `x = 0` and `y = 0` that is the pixel
`(x, y)` of the level. -/
theorem readTile_crops_level (s : TiledImageSource) (inTiles : Bool) (mipLevel : Nat)
    (tile : Tile) (stream : CUstream) (level : List Nat) (x y c : Nat)
    (huntiled : s.m_baseIsTiled = false)
    (horigin : s.tileOrigin = if inTiles then tileGridOrigin else tilePixelOrigin)
    (hbase : s.m_baseImage.readMipLevel mipLevel (s.levelWidth mipLevel)
      (s.levelHeight mipLevel) stream = some level)
    (hlen : level.length
      = s.levelWidth mipLevel * s.levelHeight mipLevel * s.pixelSizeInBytes)
    (hcache : s.m_mipLevels mipLevel = none ∨ s.m_mipLevels mipLevel = some level)
    (hx : (if inTiles then tile.x * tile.width else tile.x) + tile.width
      ≤ s.levelWidth mipLevel)
    (hy : (if inTiles then tile.y * tile.height else tile.y) + tile.height
      ≤ s.levelHeight mipLevel)
    (hpx : x < tile.width) (hpy : y < tile.height) (hc : c < s.pixelSizeInBytes) :
    ∃ dest, (s.readTile mipLevel tile stream).1 = some dest
      ∧ dest.length = tile.height * (tile.width * s.pixelSizeInBytes)
      ∧ dest[(y * tile.width + x) * s.pixelSizeInBytes + c]?
          = level[(((if inTiles then tile.y * tile.height else tile.y) + y)
                      * s.levelWidth mipLevel
                    + ((if inTiles then tile.x * tile.width else tile.x) + x))
                  * s.pixelSizeInBytes + c]?
      ∧ (((if inTiles then tile.y * tile.height else tile.y) + y) * s.levelWidth mipLevel
            + ((if inTiles then tile.x * tile.width else tile.x) + x))
          * s.pixelSizeInBytes + c < level.length
      ∧ (tile.x = 0 → tile.y = 0 →
          dest[(y * tile.width + x) * s.pixelSizeInBytes + c]?
            = level[(y * s.levelWidth mipLevel + x) * s.pixelSizeInBytes + c]?) := by
  have ho1 : (s.tileOrigin tile).1 = if inTiles then tile.x * tile.width else tile.x := by
    rw [horigin]
    cases inTiles <;> rfl
  have ho2 : (s.tileOrigin tile).2 = if inTiles then tile.y * tile.height else tile.y := by
    rw [horigin]
    cases inTiles <;> rfl
  have hread := (TiledImageSource.readTile_untiled s mipLevel tile stream level huntiled hbase
    hcache).1
  rw [ho1, ho2] at hread
  obtain ⟨h1, h2, h3⟩ := copyRows_pixel level (s.levelWidth mipLevel) (s.levelHeight mipLevel)
    s.pixelSizeInBytes (if inTiles then tile.x * tile.width else tile.x)
    (if inTiles then tile.y * tile.height else tile.y) tile.width tile.height
    x y c hlen hx hy hpx hpy hc
  refine ⟨_, hread, h3, h1, h2, ?_⟩
  intro hx0 hy0
  rw [h1, hx0, hy0]
  cases inTiles <;> simp

/-- Witness for C21: `sampleImage`, 4 by 2 pixels, opened; the tile `{ 1, 0, 2, 2 }` read as
the second tile of a grid of 2 by 2 tiles covers the columns 2 and 3, and the pixel
`(1, 1)` of the tile is the pixel `(3, 1)` of the level. -/
theorem readTile_crops_level_witness :
    ∃ dest,
      ((TiledImageSource.«open» true
          (TiledImageSource.create sampleImage (fun _ => 1) tileGridOrigin)).2.readTile 0
            ⟨1, 0, 2, 2⟩ 7).1 = some dest
      ∧ dest.length = 2 * (2 * 1)
      ∧ dest[(1 * 2 + 1) * 1 + 0]?
          = [0, 1, 2, 3, 10, 11, 12, 13][((0 * 2 + 1) * 4 + (1 * 2 + 1)) * 1 + 0]?
      ∧ ((0 * 2 + 1) * 4 + (1 * 2 + 1)) * 1 + 0 < [0, 1, 2, 3, 10, 11, 12, 13].length
      ∧ ((1 : Nat) = 0 → (0 : Nat) = 0 →
          dest[(1 * 2 + 1) * 1 + 0]?
            = [0, 1, 2, 3, 10, 11, 12, 13][(1 * 4 + 1) * 1 + 0]?) :=
  readTile_crops_level
    (TiledImageSource.«open» true
      (TiledImageSource.create sampleImage (fun _ => 1) tileGridOrigin)).2
    true 0 ⟨1, 0, 2, 2⟩ 7 [0, 1, 2, 3, 10, 11, 12, 13] 1 1 0 rfl rfl rfl (by decide)
    (Or.inl rfl) (by decide) (by decide) (by decide) (by decide) (by decide)

/-- C22. `TiledImageSource.open` over an untiled base image reports a tiled image: for
every valid base `TextureInfo` with `isTiled = false`, the info written by `open()`, when it
is given an output pointer, and the info returned by a following `getInfo()`, with or
without that pointer, equal the base info with only `isTiled` changed to true, and the only
call made on the base image is its `open`: its `getInfo` is not consulted. -/
theorem open_reports_tiled (baseImage : BaseImage) (getBytesPerChannel : Nat → Nat)
    (tileOrigin : Tile → Nat × Nat) (wantsInfo : Bool)
    (_hvalid : baseImage.info.isValid = true) (huntiled : baseImage.info.isTiled = false) :
    (TiledImageSource.«open» wantsInfo
        (TiledImageSource.create baseImage getBytesPerChannel tileOrigin)).1
        = (if wantsInfo then some { baseImage.info with isTiled := true } else none)
      ∧ (TiledImageSource.«open» wantsInfo
          (TiledImageSource.create baseImage getBytesPerChannel tileOrigin)).2.getInfo.1
        = { baseImage.info with isTiled := true }
      ∧ (TiledImageSource.«open» wantsInfo
          (TiledImageSource.create baseImage getBytesPerChannel tileOrigin)).2.getInfo.2.baseCalls
        = [BaseImageCall.open] := by
  simp [TiledImageSource.«open», TiledImageSource.create, TiledImageSource.getInfo, huntiled]

/-- Witness for C22: `sampleImage` opened without an output pointer. -/
theorem open_reports_tiled_witness :
    (TiledImageSource.«open» false
        (TiledImageSource.create sampleImage (fun _ => 1) tileGridOrigin)).1
        = (if false then some { sampleImage.info with isTiled := true } else none)
      ∧ (TiledImageSource.«open» false
          (TiledImageSource.create sampleImage (fun _ => 1) tileGridOrigin)).2.getInfo.1
        = { sampleImage.info with isTiled := true }
      ∧ (TiledImageSource.«open» false
          (TiledImageSource.create sampleImage (fun _ => 1) tileGridOrigin)).2.getInfo.2.baseCalls
        = [BaseImageCall.open] :=
  open_reports_tiled sampleImage (fun _ => 1) tileGridOrigin false (by decide) (by decide)

/-- C23. `TiledImageSource` counts tile reads one per request while reading the level once:
over an untiled base image that delivers the level, after `open` and any sequence of `k`
`readTile` calls on the same mip level (distinct or overlapping tiles, any streams),
`getNumTilesRead()` is `k`, and the calls made on the base image are its `open` followed,
when `k ≥ 1`, by exactly one `readMipLevel` for that level, made by the first `readTile`. -/
theorem readTile_counts_reads (baseImage : BaseImage) (getBytesPerChannel : Nat → Nat)
    (tileOrigin : Tile → Nat × Nat) (wantsInfo : Bool) (mipLevel : Nat)
    (reads : List (Tile × CUstream))
    (huntiled : baseImage.info.isTiled = false)
    (hbase : ∀ stream,
      baseImage.readMipLevel mipLevel (calculateLevelDim mipLevel baseImage.info.width)
        (calculateLevelDim mipLevel baseImage.info.height) stream ≠ none) :
    (TiledImageSource.readTiles mipLevel reads
        (TiledImageSource.«open» wantsInfo
          (TiledImageSource.create baseImage getBytesPerChannel tileOrigin)).2).getNumTilesRead.1
        = reads.length
      ∧ (TiledImageSource.readTiles mipLevel reads
          (TiledImageSource.«open» wantsInfo
            (TiledImageSource.create baseImage getBytesPerChannel tileOrigin)).2).baseCalls
        = BaseImageCall.open ::
            (match reads with
             | [] => []
             | (_, stream) :: _ =>
               [BaseImageCall.readMipLevel mipLevel
                  (calculateLevelDim mipLevel baseImage.info.width)
                  (calculateLevelDim mipLevel baseImage.info.height) stream]) := by
  cases reads with
  | nil =>
    simp [TiledImageSource.readTiles, TiledImageSource.«open», TiledImageSource.create,
      TiledImageSource.getNumTilesRead, huntiled]
  | cons read rest =>
    obtain ⟨tile, stream⟩ := read
    obtain ⟨level, hlevel⟩ := Option.ne_none_iff_exists'.mp (hbase stream)
    have hfirst := TiledImageSource.readTile_untiled
      (TiledImageSource.«open» wantsInfo
        (TiledImageSource.create baseImage getBytesPerChannel tileOrigin)).2
      mipLevel tile stream level huntiled hlevel (Or.inl rfl)
    obtain ⟨_, f2, f3, f4, _, _, f7⟩ := hfirst
    obtain ⟨k1, k2, k3⟩ := TiledImageSource.readTiles_kept mipLevel level rest _ f4 f3
    simp only [TiledImageSource.readTiles]
    constructor
    · simp only [TiledImageSource.getNumTilesRead, k3]
      simp only [Bool.false_eq_true, if_false]
      rw [k1, f2, List.length_cons]
      have h0 : (TiledImageSource.«open» wantsInfo
          (TiledImageSource.create baseImage getBytesPerChannel tileOrigin)).2.m_numTilesRead
          = 0 := rfl
      rw [h0]
      omega
    · rw [k2, f7]
      simp [TiledImageSource.«open», TiledImageSource.create, TiledImageSource.levelWidth,
        TiledImageSource.levelHeight]

/-- Witness for C23: `sampleImage` opened, then the tiles `{ 0, 0, 2, 2 }` and
`{ 1, 0, 2, 2 }` of level 0 read on stream 7. -/
theorem readTile_counts_reads_witness :
    (TiledImageSource.readTiles 0 [(⟨0, 0, 2, 2⟩, 7), (⟨1, 0, 2, 2⟩, 7)]
        (TiledImageSource.«open» false
          (TiledImageSource.create sampleImage (fun _ => 1) tileGridOrigin)).2).getNumTilesRead.1
        = [((⟨0, 0, 2, 2⟩ : Tile), (7 : CUstream)), (⟨1, 0, 2, 2⟩, 7)].length
      ∧ (TiledImageSource.readTiles 0 [(⟨0, 0, 2, 2⟩, 7), (⟨1, 0, 2, 2⟩, 7)]
          (TiledImageSource.«open» false
            (TiledImageSource.create sampleImage (fun _ => 1) tileGridOrigin)).2).baseCalls
        = BaseImageCall.open ::
            (match [((⟨0, 0, 2, 2⟩ : Tile), (7 : CUstream)), (⟨1, 0, 2, 2⟩, 7)] with
             | [] => []
             | (_, stream) :: _ =>
               [BaseImageCall.readMipLevel 0 (calculateLevelDim 0 sampleImage.info.width)
                  (calculateLevelDim 0 sampleImage.info.height) stream]) :=
  readTile_counts_reads sampleImage (fun _ => 1) tileGridOrigin false 0
    [(⟨0, 0, 2, 2⟩, 7), (⟨1, 0, 2, 2⟩, 7)] (by decide) (fun _ => by simp [sampleImage])

/-- C24. Postcondition and frame of `setMaxTextureMemory`: for every loader state and
`maxMem`, after `setMaxTextureMemory( maxMem )` the pending list is the previous list with
exactly one range appended, whose `startPage` is `options.numPageTableEntries` and whose
`endPage` is `options.numPages`; `options.maxTexMemPerDevice` is `maxMem`, and `numPages`
and `numPageTableEntries` are unchanged. -/
theorem setMaxTextureMemory_frame (loader : DemandPageLoaderImpl) (maxMem : Nat) :
    ∃ ir, (loader.setMaxTextureMemory maxMem).m_pagesToInvalidate
          = loader.m_pagesToInvalidate ++ [ir]
      ∧ ir.startPage = loader.m_options.numPageTableEntries
      ∧ ir.endPage = loader.m_options.numPages
      ∧ (loader.setMaxTextureMemory maxMem).m_options.maxTexMemPerDevice = maxMem
      ∧ (loader.setMaxTextureMemory maxMem).m_options.numPages = loader.m_options.numPages
      ∧ (loader.setMaxTextureMemory maxMem).m_options.numPageTableEntries
          = loader.m_options.numPageTableEntries :=
  ⟨_, rfl, rfl, rfl, rfl, rfl, rfl⟩

/-- C25 as stated fails where the `int` page offset overflows. For a level of 8 by
`2^28 + 8` tiles `calculateNumTilesInLevel` is `2^31 + 64`, without overflow, and the tile
`(0, 2^28)` lies in the level; the `int` product `64 * ( 1 * 2^25 )` wraps and the page
offset is `-2^31`, which is negative. -/
theorem hw_page_offset_fits_counterexample :
    (1 : Nat) ≤ 8 ∧ (1 : Nat) ≤ 268435464 ∧ (0 : Nat) < 8 ∧ (268435456 : Nat) < 268435464
      ∧ HW.calculateNumTilesInLevel 8 268435464 = 2147483712
      ∧ 8 * ((8 + 7) / 8) * (8 * ((268435464 + 7) / 8)) < 2 ^ 32
      ∧ HW.getPageOffsetFromTileCoords 0 268435456 8 = -2147483648
      ∧ ¬ 0 ≤ HW.getPageOffsetFromTileCoords 0 268435456 8 := by
  decide

/-- C25, amended. Every tile's page offset fits in the level's reserved page count of the
hardware scheme when nothing overflows: for every level size `w ≥ 1`, `h ≥ 1` in tiles whose
rounded tile count `(8*ceil(w/8)) * (8*ceil(h/8))` is below `2^32` (so that
`calculateNumTilesInLevel( w, h )` does not overflow) and every tile `x < w`, `y < h` whose
page offset is below `2^31` (so that the `int` arithmetic does not overflow),
`0 ≤ getPageOffsetFromTileCoords( x, y, w ) < calculateNumTilesInLevel( w, h )`. -/
theorem hw_page_offset_fits (w h x y : Nat) (_hw : 1 ≤ w) (hh : 1 ≤ h) (hx : x < w)
    (hy : y < h)
    (hcount : 8 * ((w + 7) / 8) * (8 * ((h + 7) / 8)) < 2 ^ 32)
    (hoff : 64 * ((w + 7) / 8 * (y / 8)) + 64 * (x / 8) + 8 * (y % 8) + x % 8 < 2 ^ 31) :
    0 ≤ HW.getPageOffsetFromTileCoords x y w
      ∧ HW.getPageOffsetFromTileCoords x y w < (HW.calculateNumTilesInLevel w h : Int) := by
  have hB : 8 ≤ 8 * ((h + 7) / 8) := by omega
  have hA : 8 * ((w + 7) / 8) * 8 ≤ 8 * ((w + 7) / 8) * (8 * ((h + 7) / 8)) :=
    Nat.mul_le_mul_left _ hB
  have hw7 : w + 7 < 2 ^ 31 := by omega
  have hlt := HW.offset_lt_rounded x y w h hx hy
  have hnum : HW.calculateNumTilesInLevel w h = 8 * ((w + 7) / 8) * (8 * ((h + 7) / 8)) := by
    rw [HW.calculateNumTilesInLevel_mod, Nat.mod_eq_of_lt hcount]
  rw [(HW.offset_round_trip_nat x y w hx hw7 hoff).1, hnum]
  exact ⟨Int.ofNat_nonneg _, by exact_mod_cast hlt⟩

/-- Witness for the amended C25: tile `(10, 19)` of a level of 13 by 20 tiles. -/
theorem hw_page_offset_fits_witness :
    0 ≤ HW.getPageOffsetFromTileCoords ((10 : Nat) : Int) ((19 : Nat) : Int) ((13 : Nat) : Int)
      ∧ HW.getPageOffsetFromTileCoords ((10 : Nat) : Int) ((19 : Nat) : Int) ((13 : Nat) : Int)
          < (HW.calculateNumTilesInLevel 13 20 : Int) :=
  hw_page_offset_fits 13 20 10 19 (by decide) (by decide) (by decide) (by decide)
    (by decide) (by decide)

/-- C26. Reverse round trip of the hardware scheme: for every `int` level width `w ≥ 1` and
every `int` page offset `p ≥ 0`, if `(tx, ty) = getTileCoordsFromPageOffset( p, w )` then
`getPageOffsetFromTileCoords( tx, ty, w ) = p`, and `tx < 8 * ceil( w / 8 )`. -/
theorem hw_page_offset_round_trip (p w : Int) (hw : 1 ≤ w) (hw31 : w < 2 ^ 31) (hp0 : 0 ≤ p)
    (hp31 : p < 2 ^ 31) :
    HW.getPageOffsetFromTileCoords ((HW.getTileCoordsFromPageOffset p w).1 : Int)
        ((HW.getTileCoordsFromPageOffset p w).2 : Int) w = p
      ∧ ((HW.getTileCoordsFromPageOffset p w).1 : Int) < 8 * ⌈(w : ℚ) / 8⌉ := by
  rw [intCeil_div_eight]
  by_cases hw7 : w + 7 < 2 ^ 31
  · exact HW.reverse_normal p w hw hw7 hp0 hp31
  · exact HW.reverse_overflow p w (by omega) hw31 hp0 hp31

/-- Witness for C26: page offset 141 of a level 13 tiles wide, which is tile `(5, 9)`. -/
theorem hw_page_offset_round_trip_witness :
    HW.getPageOffsetFromTileCoords ((HW.getTileCoordsFromPageOffset 141 13).1 : Int)
        ((HW.getTileCoordsFromPageOffset 141 13).2 : Int) 13 = 141
      ∧ ((HW.getTileCoordsFromPageOffset 141 13).1 : Int) < 8 * ⌈((13 : Int) : ℚ) / 8⌉ :=
  hw_page_offset_round_trip 141 13 (by decide) (by decide) (by decide) (by decide)

/-- C27 as stated fails for level widths that do not fit in `int`. With
`levelWidthInTiles = 2^31`, `tileX = 0`, `x = 1` and `dx = 0` the cast
`(int)levelWidthInTiles` is `-2^31`, the spillover test resets `x` to 0, the final test
`x >= (int)levelWidthInTiles` holds and the subtraction leaves `-2^31`. -/
theorem hw_wrapFootprintTileCoord_wide_counterexample :
    (0 : Int) ≤ 1 ∧ (1 : Int) < 8 ∧ (0 : Nat) < 8 ∧ (8 : Nat) ≤ 2147483648
      ∧ 8 * 0 < (2147483648 : Nat)
      ∧ HW.wrapFootprintTileCoord 1 0 0 2147483648 = -2147483648
      ∧ ¬ 0 ≤ HW.wrapFootprintTileCoord 1 0 0 2147483648 := by
  decide

/-- C27, amended. `wrapFootprintTileCoord` yields a valid tile coordinate on levels at
least one block wide whose width fits in `int`: for every `0 ≤ x < 8`, `0 ≤ dx < 8`,
`8 ≤ levelWidthInTiles < 2^31` and block index `tileX` with `8 * tileX < levelWidthInTiles`,
the result `r` satisfies `0 ≤ r < levelWidthInTiles`. -/
theorem hw_wrapFootprintTileCoord_wide (x : Int) (dx tileX levelWidthInTiles : Nat)
    (hx0 : 0 ≤ x) (hx8 : x < 8) (hdx : dx < 8) (hL8 : 8 ≤ levelWidthInTiles)
    (hL31 : levelWidthInTiles < 2 ^ 31) (ht : 8 * tileX < levelWidthInTiles) :
    0 ≤ HW.wrapFootprintTileCoord x dx tileX levelWidthInTiles
      ∧ HW.wrapFootprintTileCoord x dx tileX levelWidthInTiles < levelWidthInTiles := by
  rw [HW.wrapFootprintTileCoord_value x dx tileX levelWidthInTiles hx0 hx8 hdx hL31 (by omega)]
  simp only []
  split_ifs <;> omega

/-- Witness for the amended C27: the last column of the second block of a level 12 tiles
wide, rotated by 3. -/
theorem hw_wrapFootprintTileCoord_wide_witness :
    0 ≤ HW.wrapFootprintTileCoord 7 3 1 12 ∧ HW.wrapFootprintTileCoord 7 3 1 12 < (12 : Nat) :=
  hw_wrapFootprintTileCoord_wide 7 3 1 12 (by decide) (by decide) (by decide) (by decide)
    (by decide) (by decide)

/-- C28 as stated fails after a toroidal rotation on a narrow level. With `x = 1`,
`dx = 7`, `levelWidthInTiles = 2` and `tileX = 0` the rotation gives `x = -7`, the single
wrap adds 2, and the result is `-5`. -/
theorem hw_wrapFootprintTileCoord_small_counterexample :
    (0 : Int) ≤ 1 ∧ (1 : Int) < 8 ∧ (7 : Nat) < 8 ∧ (1 : Nat) ≤ 2 ∧ (2 : Nat) < 8
      ∧ HW.wrapFootprintTileCoord 1 7 0 2 = -5
      ∧ ¬ 0 ≤ HW.wrapFootprintTileCoord 1 7 0 2 := by
  decide

/-- C28, amended. `wrapFootprintTileCoord` yields a valid tile coordinate on small levels
when the rotation does not carry `x` below `-levelWidthInTiles`: for every `0 ≤ x < 8`,
`0 ≤ dx < 8`, every `levelWidthInTiles` with `1 ≤ levelWidthInTiles < 8` and `tileX = 0`
such that `x + dx < 8` (no rotation) or `x + levelWidthInTiles ≥ 8`, the result `r`
satisfies `0 ≤ r < levelWidthInTiles`. -/
theorem hw_wrapFootprintTileCoord_small (x : Int) (dx levelWidthInTiles : Nat)
    (hx0 : 0 ≤ x) (hx8 : x < 8) (hdx : dx < 8) (hL1 : 1 ≤ levelWidthInTiles)
    (hL8 : levelWidthInTiles < 8)
    (hrot : x + dx < 8 ∨ x + levelWidthInTiles ≥ 8) :
    0 ≤ HW.wrapFootprintTileCoord x dx 0 levelWidthInTiles
      ∧ HW.wrapFootprintTileCoord x dx 0 levelWidthInTiles < levelWidthInTiles := by
  rw [HW.wrapFootprintTileCoord_value x dx 0 levelWidthInTiles hx0 hx8 hdx (by omega)
    (by omega)]
  simp only []
  split_ifs <;> omega

/-- Witness for the amended C28: column 6 of a level 3 tiles wide, rotated by 5. -/
theorem hw_wrapFootprintTileCoord_small_witness :
    0 ≤ HW.wrapFootprintTileCoord 6 5 0 3 ∧ HW.wrapFootprintTileCoord 6 5 0 3 < (3 : Nat) :=
  hw_wrapFootprintTileCoord_small 6 5 3 (by decide) (by decide) (by decide) (by decide)
    (by decide) (by decide)

end demandLoading
